import Mathlib

/-!
Verification of the ARM32 code-generation backend of the exp04-minic-expr
compiler: the emission layer (ILocArm32), the register allocator
(SimpleRegisterAllocator), the instruction selector (InstSelectorArm32) and
the stack-frame layout manager (Function::reallocateMemory /
validateMemoryAllocation), shallowly embedded from the C++ sources.

Pieces of the repository that the backend uses but whose sources are not part
of this tree (PlatformArm32 constants and legality predicates, the Value
class hierarchy) are modelled from the specification; every such definition
carries a doc comment starting with "Modelled from the spec:".
-/

set_option autoImplicit false

namespace MiniCBackend

/-! ## Decimal rendering of integers (model of std::to_string) -/

/-- One decimal digit as a character, `digitChar d` for `d < 10`. -/
def digitChar (d : Nat) : Char :=
  match d with
  | 0 => '0' | 1 => '1' | 2 => '2' | 3 => '3' | 4 => '4'
  | 5 => '5' | 6 => '6' | 7 => '7' | 8 => '8' | _ => '9'

/-- Numeric value of a decimal digit character, if it is one. -/
def charDigit (c : Char) : Option Nat :=
  if 48 ≤ c.toNat ∧ c.toNat ≤ 57 then some (c.toNat - 48) else none

/-- Decimal digit characters of a positive `n`, most significant first,
by structural recursion on a fuel bound so that the kernel can evaluate it. -/
def natCharsAux : Nat → Nat → List Char
  | 0, _ => []
  | fuel + 1, n => if n = 0 then [] else natCharsAux fuel (n / 10) ++ [digitChar (n % 10)]

/-- Decimal digit characters of `n`, most significant first. -/
def natChars (n : Nat) : List Char :=
  if n = 0 then ['0'] else natCharsAux n n

theorem natCharsAux_eq (fuel n : Nat) (h : n ≤ fuel) :
    natCharsAux fuel n = ((Nat.digits 10 n).map digitChar).reverse := by
  induction fuel generalizing n with
  | zero =>
    have : n = 0 := Nat.le_zero.mp h
    subst this; simp [natCharsAux]
  | succ fuel ih =>
    by_cases h0 : n = 0
    · subst h0; simp [natCharsAux]
    · have hlt : n / 10 < n := Nat.div_lt_self (Nat.pos_of_ne_zero h0) (by norm_num)
      have hle : n / 10 ≤ fuel := by omega
      simp only [natCharsAux, h0, if_false, ih (n / 10) hle]
      rw [Nat.digits_def' (by norm_num : (1:Nat) < 10) (Nat.pos_of_ne_zero h0)]
      simp

theorem natChars_eq (n : Nat) :
    natChars n = if n = 0 then ['0'] else ((Nat.digits 10 n).map digitChar).reverse := by
  by_cases h : n = 0
  · subst h; rfl
  · simp only [natChars, h, if_false, natCharsAux_eq n n (le_refl n)]

/-- Model of `std::to_string` on a non-negative value. -/
def natToString (n : Nat) : String := String.mk (natChars n)

/-- Model of `std::to_string` on a C `int` value (as an unbounded Int; the
callers we embed never overflow). -/
def intToString (i : Int) : String :=
  if i < 0 then String.mk ('-' :: natChars i.natAbs) else natToString i.toNat

/-- Digit values of an all-digit character list, `none` on a non-digit. -/
def digitsOf : List Char → Option (List Nat)
  | [] => some []
  | c :: cs =>
    match charDigit c, digitsOf cs with
    | some d, some ds => some (d :: ds)
    | _, _ => none

/-- Parse a non-empty all-digit character list, most significant first. -/
def parseNatChars (l : List Char) : Option Nat :=
  match l with
  | [] => none
  | _ => (digitsOf l).map (fun ds => Nat.ofDigits 10 ds.reverse)

/-- Parse an optional minus sign followed by digits. -/
def parseIntChars (l : List Char) : Option Int :=
  match l with
  | [] => none
  | c :: rest =>
    if c = '-' then (parseNatChars rest).map (fun n => -(Int.ofNat n))
    else (parseNatChars l).map (fun n => Int.ofNat n)

theorem charDigit_digitChar (d : Nat) (hd : d < 10) : charDigit (digitChar d) = some d := by
  interval_cases d <;> rfl

theorem digitsOf_map_digitChar (l : List Nat) (hl : ∀ d ∈ l, d < 10) :
    digitsOf (l.map digitChar) = some l := by
  induction l with
  | nil => rfl
  | cons a t ih =>
    have ha : a < 10 := hl a (List.mem_cons_self a t)
    have ht : ∀ d ∈ t, d < 10 := fun d hd => hl d (List.mem_cons_of_mem a hd)
    simp only [List.map_cons, digitsOf, charDigit_digitChar a ha, ih ht]

theorem natChars_ne_nil (n : Nat) : natChars n ≠ [] := by
  rw [natChars_eq]
  by_cases h : n = 0
  · subst h; simp
  · simp only [h, if_false]
    intro habs
    have hne := (@Nat.digits_ne_nil_iff_ne_zero 10 n).mpr h
    simp only [List.reverse_eq_nil_iff, List.map_eq_nil_iff] at habs
    exact hne habs

theorem digitsOf_natChars (n : Nat) :
    digitsOf (natChars n) = some (if n = 0 then [0] else (Nat.digits 10 n).reverse) := by
  rw [natChars_eq]
  by_cases h : n = 0
  · subst h; rfl
  · simp only [h, if_false]
    rw [← List.map_reverse]
    have hlt : ∀ d ∈ (Nat.digits 10 n).reverse, d < 10 := by
      intro d hd
      exact Nat.digits_lt_base (by norm_num) (List.mem_reverse.mp hd)
    exact digitsOf_map_digitChar (Nat.digits 10 n).reverse hlt

theorem parseNatChars_natChars (n : Nat) : parseNatChars (natChars n) = some n := by
  have hd := digitsOf_natChars n
  cases hcs : natChars n with
  | nil => exact absurd hcs (natChars_ne_nil n)
  | cons c cs =>
    simp only [parseNatChars]
    rw [← hcs, hd]
    by_cases h : n = 0
    · subst h; rfl
    · simp only [h, if_false, Option.map_some', List.reverse_reverse, Nat.ofDigits_digits]

theorem natChars_head_not_minus (n : Nat) : ∀ c cs, natChars n = c :: cs → c ≠ '-' := by
  intro c cs hc
  rw [natChars_eq] at hc
  by_cases h : n = 0
  · subst h
    rw [if_pos rfl] at hc
    cases hc; decide
  · simp only [h, if_false] at hc
    have hmem : c ∈ (Nat.digits 10 n).map digitChar := by
      have : c ∈ ((Nat.digits 10 n).map digitChar).reverse := by
        rw [hc]; exact List.mem_cons_self c cs
      simpa using this
    obtain ⟨d, hd, hdc⟩ := List.mem_map.mp hmem
    have hd10 : d < 10 := Nat.digits_lt_base (by norm_num) hd
    subst hdc
    interval_cases d <;> decide

theorem parseInt_intToString (i : Int) : parseIntChars (intToString i).data = some i := by
  by_cases h : i < 0
  · simp only [intToString, h, if_true]
    show parseIntChars ('-' :: natChars i.natAbs) = some i
    simp only [parseIntChars, if_pos rfl, if_true, parseNatChars_natChars, Option.map_some',
      Option.some_inj, Int.ofNat_eq_coe]
    omega
  · simp only [intToString, h, if_false]
    show parseIntChars (natChars i.toNat) = some i
    cases hcs : natChars i.toNat with
    | nil => exact absurd hcs (natChars_ne_nil i.toNat)
    | cons c cs =>
      have hcne : c ≠ '-' := natChars_head_not_minus i.toNat c cs hcs
      simp only [parseIntChars, if_neg hcne]
      rw [← hcs, parseNatChars_natChars]
      simp only [Option.map_some', Option.some_inj, Int.ofNat_eq_coe]
      omega

/-! ## PlatformArm32 constants (not under src/, modelled from the spec) -/

/-- Modelled from the spec: the size of the allocatable register pool; the
allocator's dynamic path scans caller-saved r0-r3 and then callee-saved
r4-r7, so the usable pool is r0-r7. -/
def maxUsableRegNum : Nat := 8

/-- Modelled from the spec: printable ARM32 register names; the frame
pointer (register 11, the base register Function.cpp hard-codes) prints as
"fp" and the stack pointer (register 13) as "sp". -/
def regName (i : Int) : String :=
  if i = 11 then "fp"
  else if i = 12 then "ip"
  else if i = 13 then "sp"
  else if i = 14 then "lr"
  else if i = 15 then "pc"
  else if 0 ≤ i && i ≤ 10 then "r" ++ intToString i
  else ""

/-- Modelled from the spec: the reserved scratch register of the emission
layer (r10). -/
def ARM32_TMP_REG_NO : Int := 10

/-- Frame-pointer register number; Function.cpp hard-codes base register 11. -/
def ARM32_FP_REG_NO : Int := 11

/-- Modelled from the spec: the stack-pointer register number (r13). -/
def ARM32_SP_REG_NO : Int := 13

/-- Modelled from the spec: displacement-addressing legality, the
architecture's fixed signed range. The selector hard-codes the same bound
(-4095..4095) where it checks ldr/str offsets inline. -/
def isDisp (off : Int) : Bool := -4095 ≤ off && off ≤ 4095

/-- Modelled from the spec: add/sub-immediate legality used by leaStack and
allocStack (an 8-bit unsigned immediate). -/
def constExpr (off : Int) : Bool := 0 ≤ off && off ≤ 255

/-! ## ArmInst and the emission layer (ILocArm32.cpp) -/

/-- One target instruction: opcode, condition suffix, result, two source
operands, extra field and the dead flag (ArmInst in ILocArm32.cpp). -/
structure ArmInst where
  opcode : String
  cond : String
  result : String
  arg1 : String
  arg2 : String
  addition : String
  dead : Bool
deriving DecidableEq, Repr

/-- ArmInst constructor with zero source operands (the C++ defaults fill the
remaining fields with empty strings and dead = false). -/
def emit0 (op rs : String) : ArmInst := ⟨op, "", rs, "", "", "", false⟩

/-- ArmInst constructor with one source operand. -/
def emit1 (op rs a1 : String) : ArmInst := ⟨op, "", rs, a1, "", "", false⟩

/-- ArmInst constructor with two source operands. -/
def emit2 (op rs a1 a2 : String) : ArmInst := ⟨op, "", rs, a1, a2, "", false⟩

/-- ArmInst::setDead. -/
def ArmInst.setDead (a : ArmInst) : ArmInst :=
  ⟨a.opcode, a.cond, a.result, a.arg1, a.arg2, a.addition, true⟩

/-- ArmInst::outPut: dead or opcode-less instructions render as the empty
string; a label result ":" is attached without a space; arguments are
comma-separated. -/
def ArmInst.outPut (a : ArmInst) : String :=
  if a.dead then ""
  else if a.opcode = "" then ""
  else
    let r0 := a.opcode ++ a.cond
    let r1 := if a.result = "" then r0
              else if a.result = ":" then r0 ++ a.result
              else r0 ++ " " ++ a.result
    let r2 := if a.arg1 = "" then r1 else r1 ++ "," ++ a.arg1
    let r3 := if a.arg2 = "" then r2 else r2 ++ "," ++ a.arg2
    if a.addition = "" then r3 else r3 ++ "," ++ a.addition

/-- ILocArm32::toStr: decimal rendering, prefixed with "#" when flag holds. -/
def toStr (num : Int) (flag : Bool) : String :=
  (if flag then "#" else "") ++ intToString num

/-- ILocArm32::label. -/
def labelInst (name : String) : ArmInst := emit0 name ":"

/-- ILocArm32::comment. -/
def commentInst (str : String) : ArmInst := emit0 "@" str

/-- Two's-complement 32-bit pattern of a C int value. -/
def bits32 (k : Int) : Nat := (k % 4294967296).toNat

/-- The C test value `(constant >> 16) & 0xFFFF` of ILocArm32::load_imm on a
32-bit int, expressed on the two's-complement pattern: the upper half-word. -/
def upper16 (k : Int) : Nat := bits32 k / 65536

/-- The movw instruction load_imm emits. -/
def movwInst (rs k : Int) : ArmInst :=
  emit1 "movw" (regName rs) ("#:lower16:" ++ intToString k)

/-- The movt instruction load_imm emits. -/
def movtInst (rs k : Int) : ArmInst :=
  emit1 "movt" (regName rs) ("#:upper16:" ++ intToString k)

/-- ILocArm32::load_imm: a single movw when the upper half-word of the
constant is zero, otherwise movw followed by movt. -/
def load_imm (rs k : Int) : List ArmInst :=
  if upper16 k = 0 then [movwInst rs k] else [movwInst rs k, movtInst rs k]

/-- ILocArm32::load_symbol: movw/movt pair against a link-time symbol. -/
def load_symbol (rs : Int) (name : String) : List ArmInst :=
  [emit1 "movw" (regName rs) ("#:lower16:" ++ name),
   emit1 "movt" (regName rs) ("#:upper16:" ++ name)]

/-- ILocArm32::load_base: displacement addressing when the offset is legal
(offset 0 omits the displacement), otherwise the offset is materialized into
the result register and register-offset addressing is used. -/
def load_base (rs base off : Int) : List ArmInst :=
  if isDisp off then
    let b := if off ≠ 0 then regName base ++ "," ++ toStr off true else regName base
    [emit1 "ldr" (regName rs) ("[" ++ b ++ "]")]
  else
    load_imm rs off ++
      [emit1 "ldr" (regName rs) ("[" ++ (regName base ++ "," ++ regName rs) ++ "]")]

/-- ILocArm32::store_base: displacement addressing when the offset is legal,
otherwise the offset is materialized into the supplied temporary register
and register-offset addressing is used. -/
def store_base (src base disp tmp : Int) : List ArmInst :=
  if isDisp disp then
    let b := if disp ≠ 0 then regName base ++ "," ++ toStr disp true else regName base
    [emit1 "str" (regName src) ("[" ++ b ++ "]")]
  else
    load_imm tmp disp ++
      [emit1 "str" (regName src) ("[" ++ (regName base ++ "," ++ regName tmp) ++ "]")]

/-- ILocArm32::mov_reg. -/
def mov_reg (rs src : Int) : List ArmInst :=
  [emit1 "mov" (regName rs) (regName src)]

/-- ILocArm32::leaStack: add-immediate when the offset is a legal constant
expression, otherwise materialize then add. -/
def leaStack (rs base off : Int) : List ArmInst :=
  if constExpr off then
    [emit2 "add" (regName rs) (regName base) (toStr off true)]
  else
    load_imm rs off ++ [emit2 "add" (regName rs) (regName base) (regName rs)]

/-- ILocArm32::call_fun. -/
def call_fun (name : String) : List ArmInst := [emit0 "bl" name]

/-- ILocArm32::jump. -/
def jumpInst (label : String) : ArmInst := emit0 "b" label

/-- First character of a std::string under operator[], which yields the null
character on the empty string. -/
def firstChar (s : String) : Char :=
  match s.data with
  | [] => Char.ofNat 0
  | c :: _ => c

/-- The first pass of ILocArm32::deleteUnusedLabel: is this a live label
definition. -/
def isLabelInst (a : ArmInst) : Bool :=
  !a.dead && (firstChar a.opcode = '.') && (a.result = ":")

/-- The inner scan of ILocArm32::deleteUnusedLabel: does any live branch
instruction (opcode starting with b) target the label name. -/
def labelUsed (code : List ArmInst) (labelName : String) : Bool :=
  code.any (fun b => !b.dead && (firstChar b.opcode = 'b') && (b.result = labelName))

/-- ILocArm32::deleteUnusedLabel: every live label that no live branch
targets is marked dead. (The C++ marks the collected label objects in
place; marking a label never changes any branch, so the per-label checks
are independent and the pass is a single map.) -/
def deleteUnusedLabel (code : List ArmInst) : List ArmInst :=
  code.map (fun a => if isLabelInst a && !labelUsed code a.opcode then a.setDead else a)

/-- ILocArm32::outPut to a line printer: label lines print unindented (even
when empty), other instructions print tab-indented, and fully empty lines
appear only when outputEmpty is set. -/
def outLines (code : List ArmInst) (outputEmpty : Bool) : List String :=
  code.foldr
    (fun a acc =>
      let s := a.outPut
      if a.result = ":" then s :: acc
      else if s ≠ "" then ("\t" ++ s) :: acc
      else if outputEmpty then "" :: acc
      else acc)
    []

/-! ## A small semantics for the mov-immediate pair (claim C4) -/

/-- Strip a literal from the front of a string. -/
def stripHead (pre s : String) : Option String :=
  if pre.data.isPrefixOf s.data then some (String.mk (s.data.drop pre.data.length))
  else none

/-- Effect of one instruction on the value of register rs, interpreting the
movw and movt encodings that load_imm emits and ignoring anything else. -/
def execMovInst (rs : Int) (r : Nat) (a : ArmInst) : Nat :=
  if a.opcode = "movw" && a.result = regName rs then
    match stripHead "#:lower16:" a.arg1 with
    | some s =>
      match parseIntChars s.data with
      | some v => bits32 v % 65536
      | none => r
    | none => r
  else if a.opcode = "movt" && a.result = regName rs then
    match stripHead "#:upper16:" a.arg1 with
    | some s =>
      match parseIntChars s.data with
      | some v => r % 65536 + bits32 v / 65536 * 65536
      | none => r
    | none => r
  else r

/-- Run a straight-line mov sequence on the value of register rs. -/
def execMovs (rs : Int) (code : List ArmInst) (r : Nat) : Nat :=
  code.foldl (execMovInst rs) r

theorem stripHead_append (pre t : String) : stripHead pre (pre ++ t) = some t := by
  have hdata : (pre ++ t).data = pre.data ++ t.data := rfl
  simp only [stripHead, hdata]
  rw [if_pos]
  · congr 1
    rw [List.drop_left]
  · exact List.isPrefixOf_iff_prefix.mpr (List.prefix_append pre.data t.data)

theorem execMovInst_movw (rs : Int) (r : Nat) (k : Int) :
    execMovInst rs r (movwInst rs k) = bits32 k % 65536 := by
  have hw : movwInst rs k = emit1 "movw" (regName rs) ("#:lower16:" ++ intToString k) := rfl
  simp only [execMovInst, hw, emit1]
  rw [if_pos]
  · rw [stripHead_append]
    show (match parseIntChars (intToString k).data with
          | some v => bits32 v % 65536
          | none => r) = bits32 k % 65536
    rw [parseInt_intToString]
  · simp

theorem execMovInst_movt (rs : Int) (r : Nat) (k : Int) :
    execMovInst rs r (movtInst rs k) = r % 65536 + bits32 k / 65536 * 65536 := by
  have hw : movtInst rs k = emit1 "movt" (regName rs) ("#:upper16:" ++ intToString k) := rfl
  simp only [execMovInst, hw, emit1]
  rw [if_neg, if_pos]
  · rw [stripHead_append]
    show (match parseIntChars (intToString k).data with
          | some v => r % 65536 + bits32 v / 65536 * 65536
          | none => r) = r % 65536 + bits32 k / 65536 * 65536
    rw [parseInt_intToString]
  · simp
  · simp

theorem execMovs_load_imm (rs k : Int) (r : Nat) :
    execMovs rs (load_imm rs k) r = bits32 k := by
  have hlt : bits32 k < 4294967296 := by
    have h0 : (0 : Int) ≤ k % 4294967296 := Int.emod_nonneg k (by norm_num)
    have h1 : k % 4294967296 < 4294967296 := Int.emod_lt_of_pos k (by norm_num)
    simp only [bits32]
    omega
  by_cases h : upper16 k = 0
  · have hsmall : bits32 k < 65536 := by
      have := h
      simp only [upper16] at this
      omega
    simp only [load_imm, h, if_true, execMovs, List.foldl, execMovInst_movw]
    omega
  · simp only [load_imm, h, if_false, execMovs, List.foldl, execMovInst_movw, execMovInst_movt]
    omega

/-- C4: for a 32-bit constant K, load_imm emits a single low-half-word move
when the upper 16 bits of K are zero and a movw/movt pair otherwise, and
executing the emitted sequence leaves the 32-bit pattern of K in the
destination register, whatever its previous value. -/
theorem C4_load_imm (rs k : Int) (r : Nat)
    (h1 : -2147483648 ≤ k) (h2 : k < 2147483648) :
    (upper16 k = 0 → load_imm rs k = [movwInst rs k]) ∧
    (upper16 k ≠ 0 → load_imm rs k = [movwInst rs k, movtInst rs k]) ∧
    execMovs rs (load_imm rs k) r = bits32 k := by
  refine ⟨fun h => ?_, fun h => ?_, execMovs_load_imm rs k r⟩
  · simp [load_imm, h]
  · simp [load_imm, h]

/-- Witness for C4 at the five constants named by the claim (0xFFFFFFFF is
the int value -1): one move for 0, 1 and 0xFFFF, two moves for 0x10000 and
0xFFFFFFFF, and the destination holds the constant pattern each time. -/
theorem C4_load_imm_witness :
    (load_imm 0 0 = [movwInst 0 0] ∧ execMovs 0 (load_imm 0 0) 7 = bits32 0) ∧
    (load_imm 0 1 = [movwInst 0 1] ∧ execMovs 0 (load_imm 0 1) 7 = bits32 1) ∧
    (load_imm 0 65535 = [movwInst 0 65535] ∧
      execMovs 0 (load_imm 0 65535) 7 = bits32 65535) ∧
    (load_imm 0 65536 = [movwInst 0 65536, movtInst 0 65536] ∧
      execMovs 0 (load_imm 0 65536) 7 = bits32 65536) ∧
    (load_imm 0 (-1) = [movwInst 0 (-1), movtInst 0 (-1)] ∧
      execMovs 0 (load_imm 0 (-1)) 7 = bits32 (-1) ∧ bits32 (-1) = 4294967295) :=
  ⟨⟨(C4_load_imm 0 0 7 (by decide) (by decide)).1 (by decide),
    (C4_load_imm 0 0 7 (by decide) (by decide)).2.2⟩,
   ⟨(C4_load_imm 0 1 7 (by decide) (by decide)).1 (by decide),
    (C4_load_imm 0 1 7 (by decide) (by decide)).2.2⟩,
   ⟨(C4_load_imm 0 65535 7 (by decide) (by decide)).1 (by decide),
    (C4_load_imm 0 65535 7 (by decide) (by decide)).2.2⟩,
   ⟨(C4_load_imm 0 65536 7 (by decide) (by decide)).2.1 (by decide),
    (C4_load_imm 0 65536 7 (by decide) (by decide)).2.2⟩,
   ⟨(C4_load_imm 0 (-1) 7 (by decide) (by decide)).2.1 (by decide),
    (C4_load_imm 0 (-1) 7 (by decide) (by decide)).2.2, by decide⟩⟩

/-- C3: within the legal displacement range both helpers emit exactly one
displacement-addressed memory instruction; outside it they first materialize
the offset (load_base into the supplied result register, store_base into the
supplied temporary register) and then emit one register-offset-addressed
memory instruction. -/
theorem C3_load_store_base (rs src base off tmp : Int) :
    (isDisp off = true →
      load_base rs base off =
        [emit1 "ldr" (regName rs)
          ("[" ++ (if off ≠ 0 then regName base ++ "," ++ toStr off true
                   else regName base) ++ "]")] ∧
      store_base src base off tmp =
        [emit1 "str" (regName src)
          ("[" ++ (if off ≠ 0 then regName base ++ "," ++ toStr off true
                   else regName base) ++ "]")]) ∧
    (isDisp off = false →
      load_base rs base off =
        load_imm rs off ++
          [emit1 "ldr" (regName rs) ("[" ++ (regName base ++ "," ++ regName rs) ++ "]")] ∧
      store_base src base off tmp =
        load_imm tmp off ++
          [emit1 "str" (regName src) ("[" ++ (regName base ++ "," ++ regName tmp) ++ "]")]) := by
  constructor
  · intro h
    constructor
    · simp [load_base, h]
    · simp [store_base, h]
  · intro h
    constructor
    · simp [load_base, h]
    · simp [store_base, h]

/-- Witness for C3 at the boundary and one unit past it, on both sides:
offsets 4095 and -4095 produce a single displacement instruction, offsets
4096 and -4096 produce the materializing sequence. -/
theorem C3_load_store_base_witness :
    load_base 8 11 4095 = [emit1 "ldr" "r8" "[fp,#4095]"] ∧
    load_base 8 11 (-4095) = [emit1 "ldr" "r8" "[fp,#-4095]"] ∧
    load_base 8 11 4096 = load_imm 8 4096 ++ [emit1 "ldr" "r8" "[fp,r8]"] ∧
    store_base 8 11 (-4096) 9 =
      load_imm 9 (-4096) ++ [emit1 "str" "r8" "[fp,r9]"] := by
  refine ⟨?_, ?_, ?_, ?_⟩
  · have h := ((C3_load_store_base 8 8 11 4095 9).1 (by decide)).1
    rw [h]; decide
  · have h := ((C3_load_store_base 8 8 11 (-4095) 9).1 (by decide)).1
    rw [h]; decide
  · have h := ((C3_load_store_base 8 8 11 4096 9).2 (by decide)).1
    rw [h]; decide
  · have h := ((C3_load_store_base 8 8 11 (-4096) 9).2 (by decide)).2
    rw [h]; decide

theorem deleteUnusedLabel_length (code : List ArmInst) :
    (deleteUnusedLabel code).length = code.length := by
  simp [deleteUnusedLabel]

/-- C5: after the dead-label pass, a live label that no live branch targets
is marked dead at its position (and renders as no text), while a label some
live branch targets is left untouched. -/
theorem C5_deleteUnusedLabel (code : List ArmInst) (i : Nat) (h : i < code.length)
    (hlab : isLabelInst (code.get ⟨i, h⟩) = true) :
    (labelUsed code (code.get ⟨i, h⟩).opcode = false →
      (deleteUnusedLabel code).get ⟨i, (deleteUnusedLabel_length code).symm ▸ h⟩ =
          (code.get ⟨i, h⟩).setDead ∧
      ((code.get ⟨i, h⟩).setDead).dead = true ∧
      ((code.get ⟨i, h⟩).setDead).outPut = "") ∧
    (labelUsed code (code.get ⟨i, h⟩).opcode = true →
      (deleteUnusedLabel code).get ⟨i, (deleteUnusedLabel_length code).symm ▸ h⟩ =
          code.get ⟨i, h⟩) := by
  have hmap : ∀ hh, (deleteUnusedLabel code).get ⟨i, hh⟩ =
      (if isLabelInst (code.get ⟨i, h⟩) && !labelUsed code (code.get ⟨i, h⟩).opcode
       then (code.get ⟨i, h⟩).setDead else code.get ⟨i, h⟩) := by
    intro hh
    simp only [List.get_eq_getElem, deleteUnusedLabel, List.getElem_map]
  constructor
  · intro hused
    refine ⟨?_, rfl, ?_⟩
    · rw [hmap, hlab, hused]
      simp
    · simp [ArmInst.setDead, ArmInst.outPut]
  · intro hused
    rw [hmap, hlab, hused]
    simp

/-- Witness for C5 on a concrete sequence: a referenced label .L1 is
retained and an unreferenced label .L2 is killed and renders empty. -/
theorem C5_deleteUnusedLabel_witness :
    (deleteUnusedLabel [labelInst ".L1", jumpInst ".L1", labelInst ".L2"]).get
        ⟨2, by decide⟩ = (labelInst ".L2").setDead ∧
    ((labelInst ".L2").setDead).outPut = "" ∧
    (deleteUnusedLabel [labelInst ".L1", jumpInst ".L1", labelInst ".L2"]).get
        ⟨0, by decide⟩ = labelInst ".L1" := by
  have h2 := C5_deleteUnusedLabel [labelInst ".L1", jumpInst ".L1", labelInst ".L2"]
      2 (by decide) (by decide)
  have h0 := C5_deleteUnusedLabel [labelInst ".L1", jumpInst ".L1", labelInst ".L2"]
      0 (by decide) (by decide)
  refine ⟨(h2.1 (by decide)).1, (h2.1 (by decide)).2.2, h0.2 (by decide)⟩

/-! ## Value model (the Value class hierarchy is not under src/) -/

/-- Modelled from the spec: the C type of a value as far as the backend
reads it: an array type with its total byte size (getSize / getTotalSize),
a pointer type, or a scalar. -/
inductive CType where
  | array (totalSize : Int)
  | pointer
  | scalar
deriving DecidableEq, Repr

/-- Modelled from the spec: the dynamic class of a Value: integer constant
(ConstInt), global variable (GlobalVariable), call-convention register
variable (RegVariable), or an ordinary value (local variable, memory
variable, temporary or instruction result). -/
inductive VKind where
  | constInt (v : Int)
  | globalVar
  | regVar
  | plain
deriving DecidableEq, Repr

/-- Modelled from the spec: the per-Value fields the backend reads and
writes: the printable name, the kind, the C type, the fixed register id of a
register variable (getRegId, -1 for others), the mutable load-register
binding (getLoadRegId / setLoadRegId), and the memory binding
(getMemoryAddr / setMemoryAddr). A register variable is permanently bound to
its call-convention register, so its loadRegId is its fixed register. -/
structure VInfo where
  name : String
  kind : VKind
  ty : Option CType
  regId : Int
  loadRegId : Int
  memAddr : Option (Int × Int)
deriving DecidableEq, Repr

instance : Inhabited VInfo := ⟨⟨"", VKind.plain, none, -1, -1, none⟩⟩

/-- The mutable store of Value objects, indexed by an identity. -/
def Store := Nat → VInfo

/-- Value::setLoadRegId. -/
def setLoadReg (st : Store) (v : Nat) (r : Int) : Store :=
  fun w => if w = v then { st v with loadRegId := r } else st w

/-- Value::setMemoryAddr. -/
def setMemAddr (st : Store) (v : Nat) (base off : Int) : Store :=
  fun w => if w = v then { st v with memAddr := some (base, off) } else st w

theorem setLoadReg_same (st : Store) (v : Nat) (r : Int) :
    (setLoadReg st v r) v = { st v with loadRegId := r } := by
  simp [setLoadReg]

theorem setLoadReg_other (st : Store) (v w : Nat) (r : Int) (h : w ≠ v) :
    (setLoadReg st v r) w = st w := by
  simp [setLoadReg, h]

/-! ## BitMap and std::map models -/

/-- Modelled from the spec: BitMap::test (false outside the map). -/
def bmTest (bm : List Bool) (no : Int) : Bool :=
  if 0 ≤ no then bm.getD no.toNat false else false

/-- Modelled from the spec: BitMap::set. -/
def bmSet (bm : List Bool) (no : Int) : List Bool :=
  if 0 ≤ no then bm.set no.toNat true else bm

/-- Modelled from the spec: BitMap::reset. -/
def bmReset (bm : List Bool) (no : Int) : List Bool :=
  if 0 ≤ no then bm.set no.toNat false else bm

/-- Modelled from the spec: the bitmap's population count. -/
def bmCount (bm : List Bool) : Nat := bm.count true

/-- std::map lookup on an association list with unique keys. -/
def alLookup {β : Type} (l : List (Nat × β)) (k : Nat) : Option β :=
  (l.find? (fun p => p.1 == k)).map Prod.snd

/-- std::map erase. -/
def alErase {β : Type} (l : List (Nat × β)) (k : Nat) : List (Nat × β) :=
  l.filter (fun p => p.1 != k)

/-- std::map insert-or-assign (operator[] followed by assignment). -/
def alSet {β : Type} (l : List (Nat × β)) (k : Nat) (b : β) : List (Nat × β) :=
  if (l.find? (fun p => p.1 == k)).isSome
  then l.map (fun p => if p.1 == k then (k, b) else p)
  else l ++ [(k, b)]

/-- std::map keyed by strings: lookup. -/
def slLookup {β : Type} (l : List (String × β)) (k : String) : Option β :=
  (l.find? (fun p => p.1 == k)).map Prod.snd

/-- std::map keyed by strings: erase. -/
def slErase {β : Type} (l : List (String × β)) (k : String) : List (String × β) :=
  l.filter (fun p => p.1 != k)

/-- std::map keyed by strings: insert-or-assign. -/
def slSet {β : Type} (l : List (String × β)) (k : String) (b : β) : List (String × β) :=
  if (l.find? (fun p => p.1 == k)).isSome
  then l.map (fun p => if p.1 == k then (k, b) else p)
  else l ++ [(k, b)]

/-- Substring search (std::string::find != npos). -/
def strContains (s pat : String) : Bool :=
  s.data.tails.any (fun t => pat.data.isPrefixOf t)

/-! ## SimpleRegisterAllocator (SimpleRegisterAllocator.cpp) -/

/-- The allocator's state: occupancy bitmap, oldest-first resident-value
queue, ever-used bitmap, dynamic-allocation record (keyed by name),
lifetime table (value to first-def/last-use), temporary-priority record and
the current instruction index. -/
structure AllocState where
  regBitmap : List Bool
  regValues : List Nat
  usedBitmap : List Bool
  dynamicTempAllocations : List (String × Int)
  variableLifetime : List (Nat × Nat × Nat)
  tempVarPriority : List (Nat × Int)
  currentInstructionIndex : Int
  globalUsageCounter : Int
deriving Repr

/-- The freshly constructed allocator. -/
def initAllocState : AllocState :=
  ⟨List.replicate maxUsableRegNum false, [], List.replicate maxUsableRegNum false,
   [], [], [], 0, 0⟩

/-- SimpleRegisterAllocator::bitmapSet: occupy a register and mark it used. -/
def bitmapSet (a : AllocState) (no : Int) : AllocState :=
  { a with regBitmap := bmSet a.regBitmap no, usedBitmap := bmSet a.usedBitmap no }

/-- SimpleRegisterAllocator::isTempVariable, which classifies by name: empty
names, names starting with t, names l<digits> with the number above 5, and
names containing "tmp" are temporaries. A name l<digits> with the number at
most 5 returns false without reaching the "tmp" check, mirroring the early
return. -/
def allocIsTemp (name : String) : Bool :=
  if name = "" then true
  else if firstChar name = 't' then true
  else if 1 < name.data.length && (firstChar name = 'l') then
    match parseNatChars (name.data.drop 1) with
    | some num => decide (5 < num)
    | none => strContains name "tmp"
  else strContains name "tmp"

/-- SimpleRegisterAllocator::free(Value*): if the value holds a register,
clear the occupancy bit, drop the value from the resident queue, purge the
dynamic-allocation record (by name) and the priority record, and unbind.
(The C++ erases the std::find iterator; under the allocator invariant the
value occurs exactly once, which List.erase matches.) -/
def freeValue (st : Store) (a : AllocState) (v : Nat) : Store × AllocState :=
  if (st v).loadRegId ≠ -1 then
    (setLoadReg st v (-1),
     { a with
        regBitmap := bmReset a.regBitmap (st v).loadRegId,
        regValues := a.regValues.erase v,
        dynamicTempAllocations := slErase a.dynamicTempAllocations (st v).name,
        tempVarPriority := alErase a.tempVarPriority v })
  else (st, a)

/-- SimpleRegisterAllocator::free(int32_t): -1 is ignored; otherwise the
occupancy bit is cleared and, if some resident value holds the register, its
records are purged and it is unbound and dequeued. -/
def freeReg (st : Store) (a : AllocState) (no : Int) : Store × AllocState :=
  if no = -1 then (st, a)
  else
    let a1 := { a with regBitmap := bmReset a.regBitmap no }
    match a1.regValues.find? (fun v => (st v).loadRegId == no) with
    | some v =>
      (setLoadReg st v (-1),
       { a1 with
          dynamicTempAllocations := slErase a1.dynamicTempAllocations (st v).name,
          tempVarPriority := alErase a1.tempVarPriority v,
          regValues := a1.regValues.erase v })
    | none => (st, a1)

/-- Index-order scan for the first free register (the k-loop of Allocate). -/
def firstFreeReg (bm : List Bool) : Int :=
  (((List.range maxUsableRegNum).find? (fun k => !bmTest bm (Int.ofNat k))).map
    Int.ofNat).getD (-1)

/-- The tail of SimpleRegisterAllocator::Allocate(Value*, int32_t): bind the
chosen register to the variable, if one was given. -/
def allocFinish (st : Store) (a : AllocState) (var : Option Nat) (regno : Int) :
    Store × AllocState × Int :=
  match var with
  | some v =>
    (setLoadReg st v regno, { a with regValues := a.regValues ++ [v] }, regno)
  | none => (st, a, regno)

/-- SimpleRegisterAllocator::Allocate(Value*, int32_t): return an existing
binding; otherwise take the requested register if free, else the first free
register in index order, else evict the oldest resident value (FIFO) and
reuse its register. (The C++ dereferences the front of an empty queue when
eviction hits an empty queue; that is undefined behaviour, unreachable under
the allocator invariant, and the embedding returns -1 there.) -/
def Allocate (st : Store) (a : AllocState) (var : Option Nat) (no : Int) :
    Store × AllocState × Int :=
  match var with
  | some v =>
    if (st v).loadRegId ≠ -1 then (st, a, (st v).loadRegId)
    else
      let regno := if no ≠ -1 ∧ bmTest a.regBitmap no = false then no
                   else firstFreeReg a.regBitmap
      if regno ≠ -1 then allocFinish st (bitmapSet a regno) (some v) regno
      else
        match a.regValues with
        | [] => (st, a, -1)
        | oldest :: rest =>
          let regno2 := (st oldest).loadRegId
          allocFinish (setLoadReg st oldest (-1)) { a with regValues := rest }
            (some v) regno2
  | none =>
    let regno := if no ≠ -1 ∧ bmTest a.regBitmap no = false then no
                 else firstFreeReg a.regBitmap
    if regno ≠ -1 then allocFinish st (bitmapSet a regno) none regno
    else
      match a.regValues with
      | [] => (st, a, -1)
      | oldest :: rest =>
        let regno2 := (st oldest).loadRegId
        allocFinish (setLoadReg st oldest (-1)) { a with regValues := rest }
          none regno2

/-- SimpleRegisterAllocator::Allocate(int32_t): force-occupy a register,
spilling whatever value held it. -/
def AllocateForce (st : Store) (a : AllocState) (no : Int) : Store × AllocState :=
  let p := if bmTest a.regBitmap no then freeReg st a no else (st, a)
  (p.1, bitmapSet p.2 no)

/-- One instruction of the linear IR as the lifetime scan reads it: its
identity as a value, whether it defines a result, and its operands. -/
structure IRInstr where
  vid : Nat
  hasResult : Bool
  operands : List Nat
deriving Repr

/-- One step of SimpleRegisterAllocator::analyzeVariableLifetime: record the
defining index of a fresh result, then push every operand's last use to the
current index (operands never seen start at 0). -/
def lifetimeStep (lt : List (Nat × Nat × Nat)) (i : Nat) (inst : IRInstr) :
    List (Nat × Nat × Nat) :=
  let lt1 := if inst.hasResult && (alLookup lt inst.vid).isNone
             then alSet lt inst.vid (i, i) else lt
  inst.operands.foldl
    (fun acc op =>
      match alLookup acc op with
      | some (b, _) => alSet acc op (b, i)
      | none => alSet acc op (0, i))
    lt1

/-- SimpleRegisterAllocator::analyzeVariableLifetime: clear the table and
scan the instruction list once. -/
def analyzeVariableLifetime (a : AllocState) (insts : List IRInstr) : AllocState :=
  { a with variableLifetime :=
      (insts.enum).foldl (fun acc p => lifetimeStep acc p.1 p.2) [] }

/-- SimpleRegisterAllocator::willBeUsedLater: true when the current index is
strictly before the recorded last use; unknown values are never used later. -/
def willBeUsedLater (a : AllocState) (v : Nat) (currentIndex : Int) : Bool :=
  match alLookup a.variableLifetime v with
  | some (_, e) => decide (currentIndex < (e : Int))
  | none => false

/-- SimpleRegisterAllocator::releaseUnusedTempVars: collect the resident
temporaries whose lifetime has ended, then free each. -/
def releaseUnusedTempVars (st : Store) (a : AllocState) (currentIndex : Int) :
    Store × AllocState :=
  let toRelease := a.regValues.filter
    (fun v => allocIsTemp (st v).name && !willBeUsedLater a v currentIndex)
  toRelease.foldl (fun p v => freeValue p.1 p.2 v) (st, a)

/-- SimpleRegisterAllocator::evictForTemp: scan the resident queue for the
value of the numerically largest priority above the requester's (non-
temporaries count as 10, unranked temporaries as 5; the first of equals
wins), free it and hand its register back; -1 when nothing qualifies. -/
def evictForTemp (st : Store) (a : AllocState) (priority : Int) :
    Store × AllocState × Int :=
  let pick := a.regValues.foldl
    (fun (acc : Option Nat × Int × Int) v =>
      let varPr : Int :=
        if allocIsTemp (st v).name then
          match alLookup a.tempVarPriority v with
          | some p => p
          | none => 5
        else 10
      if varPr > priority && varPr > acc.2.2 then (some v, (st v).loadRegId, varPr)
      else acc)
    (none, -1, 0)
  match pick with
  | (some v, vreg, _) =>
    if vreg ≠ -1 then
      let p := freeValue st a v
      (p.1, p.2, vreg)
    else (st, a, -1)
  | (none, _, _) => (st, a, -1)

/-- Bind a free register to a temporary inside dynamicAllocateTemp: occupy
the bit, set the load register, enqueue, and record the dynamic allocation
and the priority as the calling strategy does. -/
def dynGrab (st : Store) (a : AllocState) (v : Nat) (k : Int)
    (recordDyn : Bool) (pr : Option Int) : Store × AllocState × Int :=
  let a1 := bitmapSet a k
  let st1 := setLoadReg st v k
  let a2 := { a1 with regValues := a1.regValues ++ [v] }
  let a3 :=
    if recordDyn then
      { a2 with dynamicTempAllocations := slSet a2.dynamicTempAllocations (st v).name k }
    else a2
  let a4 := match pr with
            | some p => { a3 with tempVarPriority := alSet a3.tempVarPriority v p }
            | none => a3
  (st1, a4, k)

/-- SimpleRegisterAllocator::dynamicAllocateTemp: return an existing
binding; else strategy 1 (for empty-named or t-named temporaries) takes the
first free register among r0-r3 (priority 1) then r4-r7 (priority 2); else
strategy 2 (when an instruction index is known) releases expired
temporaries and takes the first free register among r0-r7 (priority 3,
recorded only for named temporaries); else strategy 3 evicts a
lower-priority resident. -/
def dynamicAllocateTemp (st : Store) (a : AllocState) (tempVar : Option Nat)
    (instructionIndex : Int) : Store × AllocState × Int :=
  match tempVar with
  | none => (st, a, -1)
  | some v =>
    if (st v).loadRegId ≠ -1 then (st, a, (st v).loadRegId)
    else
      let varName := (st v).name
      let s1 : Option (Store × AllocState × Int) :=
        if allocIsTemp varName && (varName = "" || firstChar varName = 't') then
          match (List.range 4).find? (fun k => !bmTest a.regBitmap (Int.ofNat k)) with
          | some k => some (dynGrab st a v (Int.ofNat k) (varName ≠ "") (some 1))
          | none =>
            match ((List.range 4).map (fun k => k + 4)).find?
                (fun k => !bmTest a.regBitmap (Int.ofNat k)) with
            | some k => some (dynGrab st a v (Int.ofNat k) (varName ≠ "") (some 2))
            | none => none
        else none
      match s1 with
      | some r => r
      | none =>
        if instructionIndex ≠ -1 then
          let p := releaseUnusedTempVars st a instructionIndex
          match (List.range 8).find? (fun k => !bmTest p.2.regBitmap (Int.ofNat k)) with
          | some k =>
            dynGrab p.1 p.2 v (Int.ofNat k)
              (allocIsTemp varName && varName ≠ "")
              (if allocIsTemp varName && varName ≠ "" then some 3 else none)
          | none => evictForTemp p.1 p.2 3
        else evictForTemp st a 3

/-! ## Bitmap lemmas -/

theorem getD_set_self (l : List Bool) (i : Nat) (b : Bool) (h : i < l.length) :
    (l.set i b).getD i false = b := by
  induction l generalizing i with
  | nil => simp at h
  | cons x t ih =>
    cases i with
    | zero => rfl
    | succ j =>
      show (t.set j b).getD j false = b
      exact ih j (by simpa using h)

theorem getD_set_other (l : List Bool) (i j : Nat) (b : Bool) (h : i ≠ j) :
    (l.set i b).getD j false = l.getD j false := by
  induction l generalizing i j with
  | nil => rfl
  | cons x t ih =>
    cases i with
    | zero =>
      cases j with
      | zero => exact absurd rfl h
      | succ j2 => rfl
    | succ i2 =>
      cases j with
      | zero => rfl
      | succ j2 =>
        show (t.set i2 b).getD j2 false = t.getD j2 false
        exact ih i2 j2 (by omega)

theorem set_getD_false_eq (l : List Bool) (i : Nat) (h : l.getD i false = false) :
    l.set i false = l := by
  induction l generalizing i with
  | nil => rfl
  | cons x t ih =>
    cases i with
    | zero =>
      simp only [List.getD_cons_zero] at h
      simp [List.set, h]
    | succ j =>
      simp only [List.getD_cons_succ] at h
      show x :: t.set j false = x :: t
      rw [ih j h]

theorem count_set_true (l : List Bool) (i : Nat) (hlt : i < l.length)
    (h : l.getD i false = false) :
    (l.set i true).count true = l.count true + 1 := by
  induction l generalizing i with
  | nil => simp at hlt
  | cons x t ih =>
    cases i with
    | zero =>
      simp only [List.getD_cons_zero] at h
      subst h
      simp [List.count_cons]
    | succ j =>
      simp only [List.getD_cons_succ] at h
      have := ih j (by simpa using hlt) h
      show ((x :: t.set j true).count true) = (x :: t).count true + 1
      simp only [List.count_cons, this]
      omega

theorem count_set_false (l : List Bool) (i : Nat) (h : l.getD i false = true) :
    l.count true = (l.set i false).count true + 1 := by
  induction l generalizing i with
  | nil => simp [List.getD] at h
  | cons x t ih =>
    cases i with
    | zero =>
      simp only [List.getD_cons_zero] at h
      subst h
      simp [List.count_cons]
    | succ j =>
      simp only [List.getD_cons_succ] at h
      have := ih j h
      show (x :: t).count true = ((x :: t.set j false).count true) + 1
      simp only [List.count_cons, this]
      omega

theorem count_all_true (l : List Bool) (h : ∀ k, k < l.length → l.getD k false = true) :
    l.count true = l.length := by
  induction l with
  | nil => rfl
  | cons x t ih =>
    have hx : x = true := h 0 (by simp)
    subst hx
    have ht : ∀ k, k < t.length → t.getD k false = true := by
      intro k hk
      have := h (k + 1) (by simpa using hk)
      simpa using this
    simp [List.count_cons, ih ht]

theorem bmTest_bmSet_self (bm : List Bool) (k : Int) (h0 : 0 ≤ k)
    (hk : k.toNat < bm.length) : bmTest (bmSet bm k) k = true := by
  simp only [bmTest, bmSet, if_pos h0]
  exact getD_set_self bm k.toNat true hk

theorem bmTest_bmSet_other (bm : List Bool) (k no : Int) (h : no ≠ k) :
    bmTest (bmSet bm k) no = bmTest bm no := by
  simp only [bmTest, bmSet]
  by_cases h0 : 0 ≤ k
  · simp only [if_pos h0]
    by_cases h1 : 0 ≤ no
    · simp only [if_pos h1]
      exact getD_set_other bm k.toNat no.toNat true (by omega)
    · simp [h1]
  · simp [h0]

theorem bmTest_bmReset_self (bm : List Bool) (k : Int) (h0 : 0 ≤ k) :
    bmTest (bmReset bm k) k = false := by
  simp only [bmTest, bmReset, if_pos h0]
  by_cases hk : k.toNat < bm.length
  · exact getD_set_self bm k.toNat false hk
  · rw [List.set_eq_of_length_le (by omega)]
    have : bm.length ≤ k.toNat := by omega
    rw [List.getD_eq_default]
    omega

theorem bmTest_bmReset_other (bm : List Bool) (k no : Int) (h : no ≠ k) :
    bmTest (bmReset bm k) no = bmTest bm no := by
  simp only [bmTest, bmReset]
  by_cases h0 : 0 ≤ k
  · simp only [if_pos h0]
    by_cases h1 : 0 ≤ no
    · simp only [if_pos h1]
      exact getD_set_other bm k.toNat no.toNat false (by omega)
    · simp [h1]
  · simp [h0]

theorem bmSet_length (bm : List Bool) (k : Int) : (bmSet bm k).length = bm.length := by
  simp only [bmSet]
  by_cases h : 0 ≤ k <;> simp [h]

theorem bmReset_length (bm : List Bool) (k : Int) : (bmReset bm k).length = bm.length := by
  simp only [bmReset]
  by_cases h : 0 ≤ k <;> simp [h]

theorem bmCount_bmSet (bm : List Bool) (k : Int) (h0 : 0 ≤ k)
    (hk : k.toNat < bm.length) (hfree : bmTest bm k = false) :
    bmCount (bmSet bm k) = bmCount bm + 1 := by
  simp only [bmTest, if_pos h0] at hfree
  simp only [bmCount, bmSet, if_pos h0]
  exact count_set_true bm k.toNat hk hfree

theorem bmCount_bmReset (bm : List Bool) (k : Int) (h0 : 0 ≤ k)
    (hset : bmTest bm k = true) :
    bmCount bm = bmCount (bmReset bm k) + 1 := by
  simp only [bmTest, if_pos h0] at hset
  simp only [bmCount, bmReset, if_pos h0]
  exact count_set_false bm k.toNat hset

/-! ## The allocator invariant (claims C1 and C7) -/

/-- The allocator's representation invariant: resident values are distinct
and bound to distinct in-range registers, the occupancy bitmap holds exactly
the bound registers, its population count equals the resident-queue length,
and values off the queue are unbound. -/
structure AllocInv (st : Store) (a : AllocState) : Prop where
  hlen : a.regBitmap.length = maxUsableRegNum
  hnodup : a.regValues.Nodup
  hrange : ∀ v ∈ a.regValues,
    0 ≤ (st v).loadRegId ∧ (st v).loadRegId < (maxUsableRegNum : Int)
  hdistinct : a.regValues.Pairwise (fun v w => (st v).loadRegId ≠ (st w).loadRegId)
  hbits : ∀ no : Int,
    bmTest a.regBitmap no = true ↔ ∃ v ∈ a.regValues, (st v).loadRegId = no
  hcount : bmCount a.regBitmap = a.regValues.length
  hunbound : ∀ v : Nat, v ∉ a.regValues → (st v).loadRegId = -1

theorem AllocInv.memOfBound {st : Store} {a : AllocState} (hI : AllocInv st a)
    {v : Nat} (h : (st v).loadRegId ≠ -1) : v ∈ a.regValues := by
  by_contra habs
  exact h (hI.hunbound v habs)

theorem AllocInv.notMemOfUnbound {st : Store} {a : AllocState} (hI : AllocInv st a)
    {v : Nat} (h : (st v).loadRegId = -1) : v ∉ a.regValues := by
  intro habs
  have := (hI.hrange v habs).1
  omega

theorem getD_replicate_false (n i : Nat) :
    (List.replicate n false).getD i false = false := by
  induction n generalizing i with
  | zero => rfl
  | succ m ih =>
    cases i with
    | zero => rfl
    | succ j => exact ih j

theorem count_replicate_false (n : Nat) : (List.replicate n false).count true = 0 := by
  induction n with
  | zero => rfl
  | succ m ih => simp [List.replicate_succ, List.count_cons, ih]

theorem allocInv_init (st : Store) (h : ∀ v, (st v).loadRegId = -1) :
    AllocInv st initAllocState := by
  refine ⟨by simp [initAllocState], by simp [initAllocState], ?_, ?_, ?_, ?_, ?_⟩
  · intro v hv; simp [initAllocState] at hv
  · simp [initAllocState]
  · intro no
    simp only [initAllocState, bmTest]
    constructor
    · intro habs
      by_cases h0 : 0 ≤ no
      · simp only [if_pos h0] at habs
        rw [getD_replicate_false] at habs
        cases habs
      · simp [h0] at habs
    · rintro ⟨v, hv, -⟩
      simp at hv
  · simp [initAllocState, bmCount, count_replicate_false]
  · intro v _
    exact h v

theorem allocInv_bindFree {st : Store} {a a2 : AllocState} (hI : AllocInv st a)
    (v : Nat) (k : Int)
    (hv : (st v).loadRegId = -1) (h0 : 0 ≤ k) (hkN : k < (maxUsableRegNum : Int))
    (hfree : bmTest a.regBitmap k = false)
    (hb : a2.regBitmap = bmSet a.regBitmap k)
    (hr : a2.regValues = a.regValues ++ [v]) :
    AllocInv (setLoadReg st v k) a2 := by
  have hvnot : v ∉ a.regValues := hI.notMemOfUnbound hv
  have hself : ((setLoadReg st v k) v).loadRegId = k := by
    rw [setLoadReg_same]
  have hother : ∀ w, w ≠ v → (setLoadReg st v k) w = st w := fun w hw =>
    setLoadReg_other st v w k hw
  have hktoN : k.toNat < a.regBitmap.length := by
    rw [hI.hlen]
    simp only [maxUsableRegNum] at hkN ⊢
    omega
  have hmemne : ∀ w ∈ a.regValues, w ≠ v := fun w hw heq => hvnot (heq ▸ hw)
  have hregne : ∀ w ∈ a.regValues, (st w).loadRegId ≠ k := by
    intro w hw heq
    have : bmTest a.regBitmap k = true := (hI.hbits k).mpr ⟨w, hw, heq⟩
    rw [hfree] at this
    cases this
  refine ⟨?_, ?_, ?_, ?_, ?_, ?_, ?_⟩
  · rw [hb, bmSet_length, hI.hlen]
  · rw [hr]
    simp [List.nodup_append, hI.hnodup, hvnot]
  · intro w hw
    rw [hr, List.mem_append] at hw
    rcases hw with hw | hw
    · rw [hother w (hmemne w hw)]
      exact hI.hrange w hw
    · simp only [List.mem_singleton] at hw
      subst hw
      rw [setLoadReg_same]
      exact ⟨h0, hkN⟩
  · rw [hr, List.pairwise_append]
    refine ⟨?_, by simp, ?_⟩
    · refine List.Pairwise.imp_of_mem ?_ hI.hdistinct
      intro x y hx hy hxy
      rw [hother x (hmemne x hx), hother y (hmemne y hy)]
      exact hxy
    · intro x hx y hy
      simp only [List.mem_singleton] at hy
      subst hy
      rw [hother x (hmemne x hx), hself]
      exact hregne x hx
  · intro no
    rw [hb, hr]
    by_cases hno : no = k
    · subst hno
      rw [bmTest_bmSet_self a.regBitmap no h0 hktoN]
      simp only [true_iff]
      exact ⟨v, by simp, hself⟩
    · rw [bmTest_bmSet_other a.regBitmap k no hno, hI.hbits no]
      constructor
      · rintro ⟨w, hw, heq⟩
        exact ⟨w, by simp [hw], by rw [hother w (hmemne w hw)]; exact heq⟩
      · rintro ⟨w, hw, heq⟩
        rw [List.mem_append] at hw
        rcases hw with hw | hw
        · exact ⟨w, hw, by rw [hother w (hmemne w hw)] at heq; exact heq⟩
        · simp only [List.mem_singleton] at hw
          subst hw
          rw [hself] at heq
          exact absurd heq.symm hno
  · rw [hb, hr, bmCount_bmSet a.regBitmap k h0 hktoN hfree, hI.hcount]
    simp
  · intro w hw
    rw [hr, List.mem_append] at hw
    push_neg at hw
    have hwv : w ≠ v := by
      intro heq
      exact hw.2 (by simp [heq])
    rw [hother w hwv]
    exact hI.hunbound w hw.1

theorem allocInv_freeBound {st : Store} {a a2 : AllocState} (hI : AllocInv st a)
    (v : Nat) (hbound : (st v).loadRegId ≠ -1)
    (hb : a2.regBitmap = bmReset a.regBitmap ((st v).loadRegId))
    (hr : a2.regValues = a.regValues.erase v) :
    AllocInv (setLoadReg st v (-1)) a2 := by
  have hvmem : v ∈ a.regValues := hI.memOfBound hbound
  have hr0 : 0 ≤ (st v).loadRegId := (hI.hrange v hvmem).1
  have hself : ((setLoadReg st v (-1)) v).loadRegId = -1 := by rw [setLoadReg_same]
  have hother : ∀ w, w ≠ v → (setLoadReg st v (-1)) w = st w := fun w hw =>
    setLoadReg_other st v w (-1) hw
  have hmem_erase : ∀ w, w ∈ a.regValues.erase v ↔ w ≠ v ∧ w ∈ a.regValues :=
    fun w => List.Nodup.mem_erase_iff hI.hnodup
  have hsymm : Symmetric (fun x y : Nat => (st x).loadRegId ≠ (st y).loadRegId) :=
    fun x y hxy => hxy.symm
  have hpair : ∀ x ∈ a.regValues, ∀ y ∈ a.regValues, x ≠ y →
      (st x).loadRegId ≠ (st y).loadRegId := by
    intro x hx y hy hxy
    exact List.Pairwise.forall hsymm hI.hdistinct hx hy hxy
  refine ⟨?_, ?_, ?_, ?_, ?_, ?_, ?_⟩
  · rw [hb, bmReset_length, hI.hlen]
  · rw [hr]
    exact hI.hnodup.erase v
  · intro w hw
    rw [hr, hmem_erase] at hw
    rw [hother w hw.1]
    exact hI.hrange w hw.2
  · rw [hr]
    have hsub : List.Sublist (a.regValues.erase v) a.regValues :=
      List.erase_sublist v a.regValues
    have hp := hI.hdistinct.sublist hsub
    refine List.Pairwise.imp_of_mem ?_ hp
    intro x y hx hy hxy
    rw [hother x ((hmem_erase x).mp hx).1, hother y ((hmem_erase y).mp hy).1]
    exact hxy
  · intro no
    rw [hb, hr]
    by_cases hno : no = (st v).loadRegId
    · subst hno
      rw [bmTest_bmReset_self a.regBitmap _ hr0]
      constructor
      · intro habs
        cases habs
      · rintro ⟨w, hw, heq⟩
        rw [hmem_erase] at hw
        rw [hother w hw.1] at heq
        exact absurd heq (hpair w hw.2 v hvmem hw.1)
    · rw [bmTest_bmReset_other a.regBitmap _ no hno, hI.hbits no]
      constructor
      · rintro ⟨w, hw, heq⟩
        have hwv : w ≠ v := by
          intro habs
          subst habs
          exact hno heq.symm
        exact ⟨w, (hmem_erase w).mpr ⟨hwv, hw⟩, by rw [hother w hwv]; exact heq⟩
      · rintro ⟨w, hw, heq⟩
        rw [hmem_erase] at hw
        exact ⟨w, hw.2, by rw [hother w hw.1] at heq; exact heq⟩
  · have hset : bmTest a.regBitmap ((st v).loadRegId) = true :=
      (hI.hbits _).mpr ⟨v, hvmem, rfl⟩
    have hc := bmCount_bmReset a.regBitmap _ hr0 hset
    have hlenv := List.length_erase_of_mem hvmem
    rw [hb, hr, hlenv]
    have hpos : 0 < a.regValues.length := List.length_pos_of_mem hvmem
    have hcnt := hI.hcount
    omega
  · intro w hw
    rw [hr] at hw
    by_cases hwv : w = v
    · subst hwv
      rw [hself]
    · rw [hother w hwv]
      refine hI.hunbound w ?_
      intro habs
      exact hw ((hmem_erase w).mpr ⟨hwv, habs⟩)

theorem allocInv_evict {st : Store} {a a2 : AllocState} (hI : AllocInv st a)
    (oldest : Nat) (rest : List Nat) (v : Nat)
    (hq : a.regValues = oldest :: rest)
    (hv : (st v).loadRegId = -1)
    (hb : a2.regBitmap = a.regBitmap)
    (hr : a2.regValues = rest ++ [v]) :
    AllocInv (setLoadReg (setLoadReg st oldest (-1)) v ((st oldest).loadRegId)) a2 := by
  have hvnot : v ∉ a.regValues := hI.notMemOfUnbound hv
  have hvo : v ≠ oldest := by
    intro habs
    exact hvnot (by rw [hq, habs]; simp)
  have hvrest : v ∉ rest := by
    intro habs
    exact hvnot (by rw [hq]; simp [habs])
  have homem : oldest ∈ a.regValues := by rw [hq]; simp
  have honotrest : oldest ∉ rest := by
    have := hI.hnodup
    rw [hq] at this
    exact (List.nodup_cons.mp this).1
  have hnodup_rest : rest.Nodup := by
    have := hI.hnodup
    rw [hq] at this
    exact (List.nodup_cons.mp this).2
  set st2 := setLoadReg (setLoadReg st oldest (-1)) v ((st oldest).loadRegId) with hst2
  have hself : (st2 v).loadRegId = (st oldest).loadRegId := by
    rw [hst2, setLoadReg_same]
  have holdest : (st2 oldest).loadRegId = -1 := by
    rw [hst2, setLoadReg_other _ _ _ _ (Ne.symm hvo), setLoadReg_same]
  have hother : ∀ w, w ≠ v → w ≠ oldest → st2 w = st w := by
    intro w h1 h2
    rw [hst2, setLoadReg_other _ _ _ _ h1, setLoadReg_other _ _ _ _ h2]
  have hrestne : ∀ w ∈ rest, w ≠ v ∧ w ≠ oldest := by
    intro w hw
    constructor
    · intro habs; exact hvrest (habs ▸ hw)
    · intro habs; exact honotrest (habs ▸ hw)
  have hpairo : ∀ w ∈ rest, (st oldest).loadRegId ≠ (st w).loadRegId := by
    have := hI.hdistinct
    rw [hq] at this
    exact (List.pairwise_cons.mp this).1
  refine ⟨?_, ?_, ?_, ?_, ?_, ?_, ?_⟩
  · rw [hb]; exact hI.hlen
  · rw [hr]
    simp [List.nodup_append, hnodup_rest, hvrest]
  · intro w hw
    rw [hr, List.mem_append] at hw
    rcases hw with hw | hw
    · rw [hother w (hrestne w hw).1 (hrestne w hw).2]
      exact hI.hrange w (by rw [hq]; simp [hw])
    · simp only [List.mem_singleton] at hw
      subst hw
      rw [hself]
      exact hI.hrange oldest homem
  · rw [hr, List.pairwise_append]
    refine ⟨?_, by simp, ?_⟩
    · have := hI.hdistinct
      rw [hq] at this
      have hp := (List.pairwise_cons.mp this).2
      refine List.Pairwise.imp_of_mem ?_ hp
      intro x y hx hy hxy
      rw [hother x (hrestne x hx).1 (hrestne x hx).2,
          hother y (hrestne y hy).1 (hrestne y hy).2]
      exact hxy
    · intro x hx y hy
      simp only [List.mem_singleton] at hy
      subst hy
      rw [hother x (hrestne x hx).1 (hrestne x hx).2, hself]
      exact fun habs => hpairo x hx habs.symm
  · intro no
    rw [hb, hr, hI.hbits no]
    constructor
    · rintro ⟨w, hw, heq⟩
      rw [hq] at hw
      rcases List.mem_cons.mp hw with hw | hw
      · subst hw
        exact ⟨v, by simp, by rw [hself]; exact heq⟩
      · exact ⟨w, by simp [hw],
          by rw [hother w (hrestne w hw).1 (hrestne w hw).2]; exact heq⟩
    · rintro ⟨w, hw, heq⟩
      rw [List.mem_append] at hw
      rcases hw with hw | hw
      · exact ⟨w, by rw [hq]; simp [hw],
          by rw [hother w (hrestne w hw).1 (hrestne w hw).2] at heq; exact heq⟩
      · simp only [List.mem_singleton] at hw
        subst hw
        rw [hself] at heq
        exact ⟨oldest, homem, heq⟩
  · rw [hb, hr, hI.hcount, hq]
    simp
  · intro w hw
    rw [hr, List.mem_append] at hw
    push_neg at hw
    by_cases hwo : w = oldest
    · subst hwo
      rw [holdest]
    · have hwv : w ≠ v := by
        intro habs
        exact hw.2 (by simp [habs])
      rw [hother w hwv hwo]
      refine hI.hunbound w ?_
      rw [hq]
      intro habs
      rcases List.mem_cons.mp habs with h1 | h1
      · exact hwo h1
      · exact hw.1 h1

theorem allocInv_congr {st : Store} {a a2 : AllocState} (hI : AllocInv st a)
    (hb : a2.regBitmap = a.regBitmap) (hr : a2.regValues = a.regValues) :
    AllocInv st a2 := by
  refine ⟨?_, ?_, ?_, ?_, ?_, ?_, ?_⟩
  · rw [hb]; exact hI.hlen
  · rw [hr]; exact hI.hnodup
  · rw [hr]; exact hI.hrange
  · rw [hr]; exact hI.hdistinct
  · rw [hb, hr]; exact hI.hbits
  · rw [hb, hr]; exact hI.hcount
  · rw [hr]; exact hI.hunbound

theorem freeValue_inv {st : Store} {a : AllocState} (hI : AllocInv st a) (v : Nat) :
    AllocInv (freeValue st a v).1 (freeValue st a v).2 := by
  by_cases h : (st v).loadRegId ≠ -1
  · simp only [freeValue, if_pos h]
    exact allocInv_freeBound hI v h rfl rfl
  · simp only [freeValue, if_neg h]
    exact hI

theorem freeValue_keep {st : Store} {a : AllocState} {v : Nat} (w : Nat)
    (hv : (st v).loadRegId = -1) :
    (((freeValue st a w).1) v).loadRegId = -1 := by
  by_cases h : (st w).loadRegId ≠ -1
  · simp only [freeValue, if_pos h]
    by_cases hvw : v = w
    · subst hvw
      rw [setLoadReg_same]
    · rw [setLoadReg_other st w v (-1) hvw]
      exact hv
  · simp only [freeValue, if_neg h]
    exact hv

theorem foldFree_inv (l : List Nat) (st : Store) (a : AllocState) (hI : AllocInv st a) :
    AllocInv (l.foldl (fun p v => freeValue p.1 p.2 v) (st, a)).1
      (l.foldl (fun p v => freeValue p.1 p.2 v) (st, a)).2 := by
  induction l generalizing st a with
  | nil => exact hI
  | cons x xs ih =>
    simp only [List.foldl_cons]
    have h1 := freeValue_inv hI x
    have := ih (freeValue st a x).1 (freeValue st a x).2 h1
    simpa using this

theorem foldFree_keep (l : List Nat) (st : Store) (a : AllocState) (v : Nat)
    (hv : (st v).loadRegId = -1) :
    (((l.foldl (fun p w => freeValue p.1 p.2 w) (st, a)).1) v).loadRegId = -1 := by
  induction l generalizing st a with
  | nil => exact hv
  | cons x xs ih =>
    simp only [List.foldl_cons]
    have h1 := @freeValue_keep st a v x hv
    have := ih (freeValue st a x).1 (freeValue st a x).2 h1
    simpa using this

theorem releaseUnused_inv {st : Store} {a : AllocState} (hI : AllocInv st a) (idx : Int) :
    AllocInv (releaseUnusedTempVars st a idx).1 (releaseUnusedTempVars st a idx).2 := by
  simp only [releaseUnusedTempVars]
  exact foldFree_inv _ st a hI

theorem releaseUnused_keep {st : Store} {a : AllocState} {v : Nat} (idx : Int)
    (hv : (st v).loadRegId = -1) :
    (((releaseUnusedTempVars st a idx).1) v).loadRegId = -1 := by
  simp only [releaseUnusedTempVars]
  exact foldFree_keep _ st a v hv

theorem freeReg_inv {st : Store} {a : AllocState} (hI : AllocInv st a) (no : Int) :
    AllocInv (freeReg st a no).1 (freeReg st a no).2 := by
  by_cases h1 : no = -1
  · simp only [freeReg, if_pos h1]
    exact hI
  · simp only [freeReg, if_neg h1]
    cases hfind : a.regValues.find? (fun v => (st v).loadRegId == no) with
    | some w =>
      simp only []
      have hw := List.find?_some hfind
      have hweq : (st w).loadRegId = no := by
        simpa using hw
      have hbound : (st w).loadRegId ≠ -1 := by
        rw [hweq]
        exact h1
      refine allocInv_freeBound hI w hbound ?_ ?_
      · simp [hweq]
      · rfl
    | none =>
      simp only []
      have hnone : ∀ w ∈ a.regValues, (st w).loadRegId ≠ no := by
        intro w hwmem habs
        have := List.find?_eq_none.mp hfind w hwmem
        simp [habs] at this
      have hfalse : bmTest a.regBitmap no = false := by
        by_contra habs
        have htrue : bmTest a.regBitmap no = true := by
          cases hx : bmTest a.regBitmap no
          · exact absurd hx habs
          · rfl
        obtain ⟨w, hwmem, hweq⟩ := (hI.hbits no).mp htrue
        exact hnone w hwmem hweq
      refine allocInv_congr hI ?_ rfl
      by_cases h0 : 0 ≤ no
      · simp only [bmReset, if_pos h0]
        apply set_getD_false_eq
        simp only [bmTest, if_pos h0] at hfalse
        exact hfalse
      · simp [bmReset, h0]

theorem evictForTemp_inv {st : Store} {a : AllocState} (hI : AllocInv st a) (pr : Int) :
    AllocInv (evictForTemp st a pr).1 (evictForTemp st a pr).2.1 := by
  simp only [evictForTemp]
  cases hpick : a.regValues.foldl
      (fun (acc : Option Nat × Int × Int) v =>
        let varPr : Int :=
          if allocIsTemp (st v).name then
            match alLookup a.tempVarPriority v with
            | some p => p
            | none => 5
          else 10
        if varPr > pr && varPr > acc.2.2 then (some v, (st v).loadRegId, varPr)
        else acc)
      (none, -1, 0) with
  | mk ov rest =>
    cases ov with
    | some w =>
      cases rest with
      | mk vreg mp =>
        by_cases hv : vreg ≠ -1
        · simp only [if_pos hv]
          exact freeValue_inv hI w
        · simp only [if_neg hv]
          exact hI
    | none => exact hI

theorem dynGrab_store (st : Store) (a : AllocState) (v : Nat) (k : Int)
    (rd : Bool) (pr : Option Int) :
    (dynGrab st a v k rd pr).1 = setLoadReg st v k := by
  cases pr <;> cases rd <;> rfl

theorem dynGrab_regBitmap (st : Store) (a : AllocState) (v : Nat) (k : Int)
    (rd : Bool) (pr : Option Int) :
    (dynGrab st a v k rd pr).2.1.regBitmap = bmSet a.regBitmap k := by
  cases pr <;> cases rd <;> rfl

theorem dynGrab_regValues (st : Store) (a : AllocState) (v : Nat) (k : Int)
    (rd : Bool) (pr : Option Int) :
    (dynGrab st a v k rd pr).2.1.regValues = a.regValues ++ [v] := by
  cases pr <;> cases rd <;> rfl

theorem dynGrab_inv {st : Store} {a : AllocState} (hI : AllocInv st a)
    (v : Nat) (k : Int) (rd : Bool) (pr : Option Int)
    (hv : (st v).loadRegId = -1) (h0 : 0 ≤ k) (hkN : k < (maxUsableRegNum : Int))
    (hfree : bmTest a.regBitmap k = false) :
    AllocInv (dynGrab st a v k rd pr).1 (dynGrab st a v k rd pr).2.1 := by
  rw [dynGrab_store]
  exact allocInv_bindFree hI v k hv h0 hkN hfree
    (dynGrab_regBitmap st a v k rd pr) (dynGrab_regValues st a v k rd pr)

theorem Allocate_inv {st : Store} {a : AllocState} (hI : AllocInv st a) (v : Nat) (no : Int)
    (hno : no = -1 ∨ (0 ≤ no ∧ no < (maxUsableRegNum : Int))) :
    AllocInv (Allocate st a (some v) no).1 (Allocate st a (some v) no).2.1 := by
  by_cases hb : (st v).loadRegId ≠ -1
  · simp only [Allocate, if_pos hb]
    exact hI
  · have hload : (st v).loadRegId = -1 := not_not.mp hb
    simp only [Allocate, if_neg hb]
    by_cases hcond : no ≠ -1 ∧ bmTest a.regBitmap no = false
    · rw [if_pos hcond, if_pos hcond.1]
      have hrange : 0 ≤ no ∧ no < (maxUsableRegNum : Int) := by
        rcases hno with h | h
        · exact absurd h hcond.1
        · exact h
      exact allocInv_bindFree hI v no hload hrange.1 hrange.2 hcond.2 rfl rfl
    · rw [if_neg hcond]
      cases hfind : (List.range maxUsableRegNum).find?
          (fun k => !bmTest a.regBitmap (Int.ofNat k)) with
      | some k =>
        have hff : firstFreeReg a.regBitmap = Int.ofNat k := by
          unfold firstFreeReg
          rw [hfind]
          rfl
        rw [hff]
        have hkne : (Int.ofNat k) ≠ -1 := by
          rw [Int.ofNat_eq_coe]
          omega
        rw [if_pos hkne]
        have hkmem := List.mem_range.mp (List.mem_of_find?_eq_some hfind)
        have hkfree : bmTest a.regBitmap (Int.ofNat k) = false := by
          have := List.find?_some hfind
          simpa using this
        exact allocInv_bindFree hI v (Int.ofNat k) hload
          (by rw [Int.ofNat_eq_coe]; omega)
          (by rw [Int.ofNat_eq_coe]; simp only [maxUsableRegNum] at hkmem ⊢; omega)
          hkfree rfl rfl
      | none =>
        have hff : firstFreeReg a.regBitmap = -1 := by
          unfold firstFreeReg
          rw [hfind]
          rfl
        rw [hff, if_neg (by omega : ¬ (-1 : Int) ≠ -1)]
        cases hq : a.regValues with
        | nil => exact hI
        | cons oldest rest =>
          exact allocInv_evict hI oldest rest v hq hload rfl rfl

theorem dynTail_inv {st : Store} {a : AllocState} (hI : AllocInv st a)
    (v : Nat) (idx : Int) (rd : Bool) (pr : Option Int)
    (hload : (st v).loadRegId = -1) :
    AllocInv
      ((if idx ≠ -1 then
          match (List.range 8).find?
              (fun k => !bmTest (releaseUnusedTempVars st a idx).2.regBitmap (Int.ofNat k)) with
          | some k =>
            dynGrab (releaseUnusedTempVars st a idx).1 (releaseUnusedTempVars st a idx).2
              v (Int.ofNat k) rd pr
          | none =>
            evictForTemp (releaseUnusedTempVars st a idx).1
              (releaseUnusedTempVars st a idx).2 3
        else evictForTemp st a 3)).1
      ((if idx ≠ -1 then
          match (List.range 8).find?
              (fun k => !bmTest (releaseUnusedTempVars st a idx).2.regBitmap (Int.ofNat k)) with
          | some k =>
            dynGrab (releaseUnusedTempVars st a idx).1 (releaseUnusedTempVars st a idx).2
              v (Int.ofNat k) rd pr
          | none =>
            evictForTemp (releaseUnusedTempVars st a idx).1
              (releaseUnusedTempVars st a idx).2 3
        else evictForTemp st a 3)).2.1 := by
  by_cases hidx : idx ≠ -1
  · rw [if_pos hidx]
    have hIp := releaseUnused_inv hI idx
    have hloadp := @releaseUnused_keep st a v idx hload
    cases hfind : (List.range 8).find?
        (fun k => !bmTest (releaseUnusedTempVars st a idx).2.regBitmap (Int.ofNat k)) with
    | some k =>
      simp only []
      have hkmem := List.mem_range.mp (List.mem_of_find?_eq_some hfind)
      have hkfree : bmTest (releaseUnusedTempVars st a idx).2.regBitmap (Int.ofNat k) = false := by
        have := List.find?_some hfind
        simpa using this
      exact dynGrab_inv hIp v (Int.ofNat k) rd pr hloadp
        (by rw [Int.ofNat_eq_coe]; omega)
        (by rw [Int.ofNat_eq_coe]; simp only [maxUsableRegNum]; omega) hkfree
    | none =>
      simp only []
      exact evictForTemp_inv hIp 3
  · rw [if_neg hidx]
    exact evictForTemp_inv hI 3

theorem dynamicAllocateTemp_inv {st : Store} {a : AllocState} (hI : AllocInv st a)
    (v : Nat) (idx : Int) :
    AllocInv (dynamicAllocateTemp st a (some v) idx).1
      (dynamicAllocateTemp st a (some v) idx).2.1 := by
  by_cases hb : (st v).loadRegId ≠ -1
  · simp only [dynamicAllocateTemp, if_pos hb]
    exact hI
  · have hload : (st v).loadRegId = -1 := not_not.mp hb
    simp only [dynamicAllocateTemp, if_neg hb]
    by_cases hname :
        (allocIsTemp (st v).name &&
          (decide ((st v).name = "") || decide (firstChar (st v).name = 't'))) = true
    · rw [if_pos hname]
      cases hf1 : (List.range 4).find? (fun k => !bmTest a.regBitmap (Int.ofNat k)) with
      | some k =>
        simp only []
        have hkmem := List.mem_range.mp (List.mem_of_find?_eq_some hf1)
        have hkfree : bmTest a.regBitmap (Int.ofNat k) = false := by
          have := List.find?_some hf1
          simpa using this
        exact dynGrab_inv hI v (Int.ofNat k) _ _ hload
          (by rw [Int.ofNat_eq_coe]; omega)
          (by rw [Int.ofNat_eq_coe]; simp only [maxUsableRegNum]; omega) hkfree
      | none =>
        simp only []
        cases hf2 : ((List.range 4).map (fun k => k + 4)).find?
            (fun k => !bmTest a.regBitmap (Int.ofNat k)) with
        | some k =>
          simp only []
          have hkmem := List.mem_of_find?_eq_some hf2
          have hklt : k < 8 := by
            rcases List.mem_map.mp hkmem with ⟨j, hj, hjk⟩
            have := List.mem_range.mp hj
            omega
          have hkfree : bmTest a.regBitmap (Int.ofNat k) = false := by
            have := List.find?_some hf2
            simpa using this
          exact dynGrab_inv hI v (Int.ofNat k) _ _ hload
            (by rw [Int.ofNat_eq_coe]; omega)
            (by rw [Int.ofNat_eq_coe]; simp only [maxUsableRegNum]; omega) hkfree
        | none =>
          simp only []
          exact dynTail_inv hI v idx _ _ hload
    · rw [if_neg hname]
      simp only []
      exact dynTail_inv hI v idx _ _ hload

/-! ## Claims C1 and C7 -/

theorem slErase_lookup {β : Type} (l : List (String × β)) (k : String) :
    slLookup (slErase l k) k = none := by
  simp only [slLookup, slErase]
  have h : (List.filter (fun p => p.1 != k) l).find? (fun p => p.1 == k) = none := by
    rw [List.find?_eq_none]
    intro p hp
    have := List.of_mem_filter hp
    simp only [bne_iff_ne] at this
    simp [this]
  rw [h]
  rfl

theorem alErase_lookup {β : Type} (l : List (Nat × β)) (k : Nat) :
    alLookup (alErase l k) k = none := by
  simp only [alLookup, alErase]
  have h : (List.filter (fun p => p.1 != k) l).find? (fun p => p.1 == k) = none := by
    rw [List.find?_eq_none]
    intro p hp
    have := List.of_mem_filter hp
    simp only [bne_iff_ne] at this
    simp [this]
  rw [h]
  rfl

/-- A store in which no value holds a register (every loadRegId is -1). -/
def unboundStore : Store := fun _ => ⟨"t1", VKind.plain, none, -1, -1, none⟩

/-- One register-allocator operation of the kind claim C1 quantifies over,
restricted to the value-binding operations (the amendment): Allocate with a
value, dynamicAllocateTemp, free by value and free by register number. -/
inductive AllocOp where
  | allocateOp (v : Nat) (no : Int)
  | dynAllocOp (v : Nat) (idx : Int)
  | freeValOp (v : Nat)
  | freeRegOp (no : Int)
deriving Repr

/-- Run one allocator operation, keeping the store and the allocator state. -/
def applyAllocOp (p : Store × AllocState) : AllocOp → Store × AllocState
  | AllocOp.allocateOp v no =>
    ((Allocate p.1 p.2 (some v) no).1, (Allocate p.1 p.2 (some v) no).2.1)
  | AllocOp.dynAllocOp v idx =>
    ((dynamicAllocateTemp p.1 p.2 (some v) idx).1,
     (dynamicAllocateTemp p.1 p.2 (some v) idx).2.1)
  | AllocOp.freeValOp v => freeValue p.1 p.2 v
  | AllocOp.freeRegOp no => freeReg p.1 p.2 no

/-- Validity of one operation: a requested register number is -1 or a real
register index. -/
def validAllocOp : AllocOp → Bool
  | AllocOp.allocateOp _ no => no == -1 || (decide (0 ≤ no) && decide (no < (maxUsableRegNum : Int)))
  | _ => true

/-- Run a sequence of allocator operations from a fresh allocator. -/
def allocRun (st0 : Store) (ops : List AllocOp) : Store × AllocState :=
  ops.foldl applyAllocOp (st0, initAllocState)

theorem applyAllocOp_inv (p : Store × AllocState) (op : AllocOp)
    (hI : AllocInv p.1 p.2) (hv : validAllocOp op = true) :
    AllocInv (applyAllocOp p op).1 (applyAllocOp p op).2 := by
  cases op with
  | allocateOp v no =>
    simp only [validAllocOp, Bool.or_eq_true, Bool.and_eq_true, beq_iff_eq,
      decide_eq_true_eq] at hv
    exact Allocate_inv hI v no hv
  | dynAllocOp v idx => exact dynamicAllocateTemp_inv hI v idx
  | freeValOp v => exact freeValue_inv hI v
  | freeRegOp no => exact freeReg_inv hI no

theorem allocFold_inv (ops : List AllocOp) (p : Store × AllocState)
    (hI : AllocInv p.1 p.2) (hops : ∀ op ∈ ops, validAllocOp op = true) :
    AllocInv (ops.foldl applyAllocOp p).1 (ops.foldl applyAllocOp p).2 := by
  induction ops generalizing p with
  | nil => exact hI
  | cons op rest ih =>
    simp only [List.foldl_cons]
    exact ih (applyAllocOp p op)
      (applyAllocOp_inv p op hI (hops op (List.mem_cons_self op rest)))
      (fun o ho => hops o (List.mem_cons_of_mem op ho))

/-- C1 (amended): across any sequence of value-binding allocator operations
(Allocate with a value and a valid register request, dynamicAllocateTemp,
free by value, free by register number) starting from a fresh allocator and
an all-unbound store, the occupancy bitmap's population count equals the
resident-value list's length, no value is resident twice, and no two
resident values are bound to the same register. The claim as frozen also
covers forced Allocate by register number, which reserves a register
without adding a resident value and breaks the equality (see the
counterexample). -/
theorem C1_alloc_invariant (st0 : Store) (h0 : ∀ v, (st0 v).loadRegId = -1)
    (ops : List AllocOp) (hops : ∀ op ∈ ops, validAllocOp op = true) :
    bmCount (allocRun st0 ops).2.regBitmap = (allocRun st0 ops).2.regValues.length ∧
    (allocRun st0 ops).2.regValues.Nodup ∧
    (allocRun st0 ops).2.regValues.Pairwise
      (fun v w => ((allocRun st0 ops).1 v).loadRegId ≠ ((allocRun st0 ops).1 w).loadRegId) := by
  have hI := allocFold_inv ops (st0, initAllocState) (allocInv_init st0 h0) hops
  exact ⟨hI.hcount, hI.hnodup, hI.hdistinct⟩

/-- Witness for C1 (amended) on a concrete operation sequence that exercises
all four operations. -/
theorem C1_alloc_invariant_witness :
    bmCount (allocRun unboundStore
        [AllocOp.allocateOp 5 (-1), AllocOp.dynAllocOp 6 0, AllocOp.allocateOp 7 2,
         AllocOp.freeValOp 5, AllocOp.freeRegOp 2]).2.regBitmap =
      (allocRun unboundStore
        [AllocOp.allocateOp 5 (-1), AllocOp.dynAllocOp 6 0, AllocOp.allocateOp 7 2,
         AllocOp.freeValOp 5, AllocOp.freeRegOp 2]).2.regValues.length ∧
    (allocRun unboundStore
        [AllocOp.allocateOp 5 (-1), AllocOp.dynAllocOp 6 0, AllocOp.allocateOp 7 2,
         AllocOp.freeValOp 5, AllocOp.freeRegOp 2]).2.regValues.Nodup ∧
    (allocRun unboundStore
        [AllocOp.allocateOp 5 (-1), AllocOp.dynAllocOp 6 0, AllocOp.allocateOp 7 2,
         AllocOp.freeValOp 5, AllocOp.freeRegOp 2]).2.regValues.Pairwise
      (fun v w =>
        ((allocRun unboundStore
            [AllocOp.allocateOp 5 (-1), AllocOp.dynAllocOp 6 0, AllocOp.allocateOp 7 2,
             AllocOp.freeValOp 5, AllocOp.freeRegOp 2]).1 v).loadRegId ≠
        ((allocRun unboundStore
            [AllocOp.allocateOp 5 (-1), AllocOp.dynAllocOp 6 0, AllocOp.allocateOp 7 2,
             AllocOp.freeValOp 5, AllocOp.freeRegOp 2]).1 w).loadRegId) :=
  C1_alloc_invariant unboundStore (fun _ => rfl)
    [AllocOp.allocateOp 5 (-1), AllocOp.dynAllocOp 6 0, AllocOp.allocateOp 7 2,
     AllocOp.freeValOp 5, AllocOp.freeRegOp 2]
    (by decide)

/-- Counterexample to C1 as frozen: a forced Allocate by register number
(SimpleRegisterAllocator::Allocate(int32_t)) sets an occupancy bit without
adding a resident value, so after forcing register 0 on a fresh allocator
the population count is 1 while the resident-value list is empty. -/
theorem C1_counterexample :
    ¬ (bmCount (AllocateForce unboundStore initAllocState 0).2.regBitmap =
        (AllocateForce unboundStore initAllocState 0).2.regValues.length) := by
  decide

/-- C7 (amended): freeing a register-resident value unbinds its register,
clears the occupancy bit, removes it from the resident queue and purges its
dynamic-allocation record and its priority record, but leaves the lifetime
table untouched (the claim as frozen says the lifetime record is purged
too; see the counterexample); freeing an unbound value, the register number
-1, or a register that is neither occupied nor held by any resident value
leaves the allocator state unchanged. -/
theorem C7_free_semantics (st : Store) (a : AllocState) (v : Nat) (no : Int) :
    (0 ≤ (st v).loadRegId → a.regValues.Nodup →
      ((freeValue st a v).1 v).loadRegId = -1 ∧
      bmTest (freeValue st a v).2.regBitmap ((st v).loadRegId) = false ∧
      v ∉ (freeValue st a v).2.regValues ∧
      slLookup (freeValue st a v).2.dynamicTempAllocations ((st v).name) = none ∧
      alLookup (freeValue st a v).2.tempVarPriority v = none ∧
      (freeValue st a v).2.variableLifetime = a.variableLifetime) ∧
    ((st v).loadRegId = -1 → freeValue st a v = (st, a)) ∧
    (freeReg st a (-1) = (st, a)) ∧
    (bmTest a.regBitmap no = false → (∀ w ∈ a.regValues, (st w).loadRegId ≠ no) →
      freeReg st a no = (st, a)) := by
  refine ⟨?_, ?_, ?_, ?_⟩
  · intro hpos hnodup
    have hbound : (st v).loadRegId ≠ -1 := by omega
    simp only [freeValue, if_pos hbound]
    refine ⟨by rw [setLoadReg_same], ?_, ?_, slErase_lookup _ _, alErase_lookup _ _, trivial⟩
    · exact bmTest_bmReset_self a.regBitmap _ hpos
    · intro habs
      have := (List.Nodup.mem_erase_iff hnodup).mp habs
      exact this.1 rfl
  · intro hunb
    simp [freeValue, hunb]
  · simp [freeReg]
  · intro hfree hnone
    by_cases h1 : no = -1
    · simp [freeReg, h1]
    · simp only [freeReg, if_neg h1]
      have hfind : a.regValues.find? (fun w => (st w).loadRegId == no) = none := by
        rw [List.find?_eq_none]
        intro w hw
        simp only [beq_iff_eq]
        exact hnone w hw
      rw [hfind]
      have hbm : bmReset a.regBitmap no = a.regBitmap := by
        by_cases h0 : 0 ≤ no
        · simp only [bmReset, if_pos h0]
          apply set_getD_false_eq
          simp only [bmTest, if_pos h0] at hfree
          exact hfree
        · simp [bmReset, h0]
      simp only [hbm]

/-- Witness for C7 (amended) at concrete states: value 5 is allocated and
then freed (after a lifetime analysis), exercising the bound branch, and
the three no-op branches run on the fresh allocator. -/
theorem C7_free_semantics_witness :
    (((freeValue (Allocate unboundStore
        (analyzeVariableLifetime initAllocState [⟨5, true, []⟩]) (some 5) (-1)).1
        (Allocate unboundStore
        (analyzeVariableLifetime initAllocState [⟨5, true, []⟩]) (some 5) (-1)).2.1 5).1 5).loadRegId = -1 ∧
      bmTest (freeValue (Allocate unboundStore
        (analyzeVariableLifetime initAllocState [⟨5, true, []⟩]) (some 5) (-1)).1
        (Allocate unboundStore
        (analyzeVariableLifetime initAllocState [⟨5, true, []⟩]) (some 5) (-1)).2.1 5).2.regBitmap
        (((Allocate unboundStore
        (analyzeVariableLifetime initAllocState [⟨5, true, []⟩]) (some 5) (-1)).1 5).loadRegId) = false ∧
      5 ∉ (freeValue (Allocate unboundStore
        (analyzeVariableLifetime initAllocState [⟨5, true, []⟩]) (some 5) (-1)).1
        (Allocate unboundStore
        (analyzeVariableLifetime initAllocState [⟨5, true, []⟩]) (some 5) (-1)).2.1 5).2.regValues ∧
      slLookup (freeValue (Allocate unboundStore
        (analyzeVariableLifetime initAllocState [⟨5, true, []⟩]) (some 5) (-1)).1
        (Allocate unboundStore
        (analyzeVariableLifetime initAllocState [⟨5, true, []⟩]) (some 5) (-1)).2.1 5).2.dynamicTempAllocations
        (((Allocate unboundStore
        (analyzeVariableLifetime initAllocState [⟨5, true, []⟩]) (some 5) (-1)).1 5).name) = none ∧
      alLookup (freeValue (Allocate unboundStore
        (analyzeVariableLifetime initAllocState [⟨5, true, []⟩]) (some 5) (-1)).1
        (Allocate unboundStore
        (analyzeVariableLifetime initAllocState [⟨5, true, []⟩]) (some 5) (-1)).2.1 5).2.tempVarPriority 5 = none ∧
      (freeValue (Allocate unboundStore
        (analyzeVariableLifetime initAllocState [⟨5, true, []⟩]) (some 5) (-1)).1
        (Allocate unboundStore
        (analyzeVariableLifetime initAllocState [⟨5, true, []⟩]) (some 5) (-1)).2.1 5).2.variableLifetime =
        (Allocate unboundStore
        (analyzeVariableLifetime initAllocState [⟨5, true, []⟩]) (some 5) (-1)).2.1.variableLifetime) ∧
    freeValue unboundStore initAllocState 9 = (unboundStore, initAllocState) ∧
    freeReg unboundStore initAllocState (-1) = (unboundStore, initAllocState) ∧
    freeReg unboundStore initAllocState 3 = (unboundStore, initAllocState) :=
  ⟨(C7_free_semantics
      (Allocate unboundStore
        (analyzeVariableLifetime initAllocState [⟨5, true, []⟩]) (some 5) (-1)).1
      (Allocate unboundStore
        (analyzeVariableLifetime initAllocState [⟨5, true, []⟩]) (some 5) (-1)).2.1
      5 3).1 (by decide) (by decide),
   (C7_free_semantics unboundStore initAllocState 9 3).2.1 (by decide),
   (C7_free_semantics unboundStore initAllocState 9 3).2.2.1,
   (C7_free_semantics unboundStore initAllocState 9 3).2.2.2 (by decide)
     (by intro w hw; cases hw)⟩

/-- Counterexample to C7 as frozen: after analyzeVariableLifetime records a
lifetime for value 5, Allocate binds it and free(5) runs; the claim says
free purges the lifetime record, but the lifetime table still contains the
entry for 5. -/
theorem C7_counterexample :
    ¬ (alLookup (freeValue (Allocate unboundStore
          (analyzeVariableLifetime initAllocState [⟨5, true, []⟩]) (some 5) (-1)).1
        (Allocate unboundStore
          (analyzeVariableLifetime initAllocState [⟨5, true, []⟩]) (some 5) (-1)).2.1
        5).2.variableLifetime 5 = none) := by
  decide

/-! ## Stack-frame layout manager (ir/Function.cpp) -/

/-- One local or memory variable as reallocateMemory reads and writes it:
name, type, and the (base register, byte offset) binding. -/
structure LVar where
  name : String
  ty : Option CType
  memAddr : Option (Int × Int)
deriving DecidableEq, Repr

/-- Type::isArrayType. -/
def isArrayTy : Option CType → Bool
  | some (CType.array _) => true
  | _ => false

/-- Function::calculateVariableSize: a null type is one word, an array is
its total size (ArrayType::getTotalSize; the dynamic-cast fallback of 32
bytes is unreachable in the model since array types always carry their
size), pointers and scalars are one word. -/
def calculateVariableSize : Option CType → Int
  | none => 4
  | some (CType.array ts) => ts
  | some CType.pointer => 4
  | some CType.scalar => 4

/-- Phase 2 of Function::reallocateMemory: arrays in declaration order;
the cursor first drops by the array size, the recorded base offset is the
high end of the range (lowest address plus size minus 4), and a four-byte
gap is left after each array. -/
def allocArrays : List LVar → Int → List LVar × Int
  | [], c => ([], c)
  | v :: vs, c =>
    if isArrayTy v.ty then
      let size := calculateVariableSize v.ty
      let c1 := c - size
      let base := c1 + size - 4
      let r := allocArrays vs (c1 - 4)
      ({ v with memAddr := some (11, base) } :: r.1, r.2)
    else
      let r := allocArrays vs c
      (v :: r.1, r.2)

/-- Phase 3 of Function::reallocateMemory: non-array variables at the
descending cursor, one size step each. -/
def allocScalars : List LVar → Int → List LVar × Int
  | [], c => ([], c)
  | v :: vs, c =>
    if !isArrayTy v.ty then
      let size := calculateVariableSize v.ty
      let r := allocScalars vs (c - size)
      ({ v with memAddr := some (11, c) } :: r.1, r.2)
    else
      let r := allocScalars vs c
      (v :: r.1, r.2)

/-- Phase 4 of Function::reallocateMemory: memory variables at the
descending cursor. -/
def allocMems : List LVar → Int → List LVar × Int
  | [], c => ([], c)
  | v :: vs, c =>
    let size := calculateVariableSize v.ty
    let r := allocMems vs (c - size)
    ({ v with memAddr := some (11, c) } :: r.1, r.2)

/-- The layout-relevant state of a Function: local variables, memory
variables, the memoryFixed latch and the recorded frame size (maxDep). -/
structure FuncMem where
  varsVector : List LVar
  memVector : List LVar
  memoryFixed : Bool
  maxDep : Int
deriving DecidableEq, Repr

/-- Function::reallocateMemory: a no-op once memoryFixed is set; otherwise
arrays, then scalars, then memory variables are placed from fp-4 downward,
the frame size is the extent rounded up to 8 bytes, and memoryFixed is
latched. ((x + 7) & ~7 on a two's-complement int equals x + 7 minus its
nonnegative remainder modulo 8.) -/
def reallocateMemory (f : FuncMem) : FuncMem :=
  if f.memoryFixed then f
  else
    let p1 := allocArrays f.varsVector (-4)
    let p2 := allocScalars p1.1 p1.2
    let p3 := allocMems f.memVector p2.2
    let totalStackSize := -(p3.2 + 4)
    let aligned := (totalStackSize + 7) - (totalStackSize + 7) % 8
    ⟨p2.1, p3.1, true, aligned⟩

/-- One insertion into the offset map of Function::validateMemoryAllocation
(std::map operator[] followed by push_back, on an association list with
unique keys). -/
def omInsert : List (Int × List String) → Int → String → List (Int × List String)
  | [], off, info => [(off, [info])]
  | p :: m, off, info =>
    if p.1 == off then (p.1, p.2 ++ [info]) :: m
    else p :: omInsert m off info

/-- The collection loops of Function::validateMemoryAllocation: every
variable with a memory address contributes its name to the group of its
offset (the base register is read but is not part of the key). -/
def omCollect (m : List (Int × List String)) (vars : List LVar) : List (Int × List String) :=
  vars.foldl
    (fun acc v =>
      match v.memAddr with
      | some (_, off) => omInsert acc off v.name
      | none => acc)
    m

/-- Function::validateMemoryAllocation: group by offset, report success
exactly when no group has more than one member. -/
def validateMemoryAllocation (f : FuncMem) : Bool :=
  let m := omCollect (omCollect [] f.varsVector) f.memVector
  !(m.any (fun p => 1 < p.2.length))

/-- C8: reallocateMemory is total and idempotent: a second run is a no-op,
and once memoryFixed is set a run changes nothing (all variables' bindings
and the recorded frame size stay as they are). -/
theorem C8_reallocate_idempotent (f : FuncMem) :
    reallocateMemory (reallocateMemory f) = reallocateMemory f ∧
    (f.memoryFixed = true → reallocateMemory f = f) := by
  constructor
  · by_cases h : f.memoryFixed
    · simp [reallocateMemory, h]
    · simp [reallocateMemory, h]
  · intro h
    simp [reallocateMemory, h]

/-- Witness for C8 on a concrete function with one scalar, one array and
one memory variable, plus the already-fixed case. -/
theorem C8_reallocate_idempotent_witness :
    reallocateMemory (reallocateMemory
      ⟨[⟨"a", some CType.scalar, none⟩, ⟨"b", some (CType.array 24), none⟩],
       [⟨"m", some CType.pointer, none⟩], false, 0⟩) =
    reallocateMemory
      ⟨[⟨"a", some CType.scalar, none⟩, ⟨"b", some (CType.array 24), none⟩],
       [⟨"m", some CType.pointer, none⟩], false, 0⟩ ∧
    reallocateMemory (⟨[], [], true, 16⟩ : FuncMem) = ⟨[], [], true, 16⟩ :=
  ⟨(C8_reallocate_idempotent
      ⟨[⟨"a", some CType.scalar, none⟩, ⟨"b", some (CType.array 24), none⟩],
       [⟨"m", some CType.pointer, none⟩], false, 0⟩).1,
   (C8_reallocate_idempotent ⟨[], [], true, 16⟩).2 rfl⟩

/-- Two variables never collide: equal base registers imply distinct
offsets. -/
def distinctAddr (v w : LVar) : Prop :=
  ∀ b1 b2 o1 o2, v.memAddr = some (b1, o1) → w.memAddr = some (b2, o2) →
    b1 = b2 → o1 ≠ o2

theorem allocArrays_spec (l : List LVar) (c : Int)
    (hsz : ∀ v ∈ l, isArrayTy v.ty = true → 1 ≤ calculateVariableSize v.ty) :
    (allocArrays l c).2 ≤ c ∧
    (∀ v ∈ (allocArrays l c).1, isArrayTy v.ty = true →
      ∃ o, v.memAddr = some (11, o) ∧ (allocArrays l c).2 < o ∧ o ≤ c - 4) ∧
    (allocArrays l c).1.Pairwise
      (fun v w => isArrayTy v.ty = true → isArrayTy w.ty = true → distinctAddr v w) := by
  induction l generalizing c with
  | nil =>
    refine ⟨le_refl c, ?_, ?_⟩
    · intro v hv
      simp [allocArrays] at hv
    · simp [allocArrays]
  | cons v vs ih =>
    by_cases hA : isArrayTy v.ty = true
    · have hs : 1 ≤ calculateVariableSize v.ty := hsz v (List.mem_cons_self v vs) hA
      have hrec := ih (c - calculateVariableSize v.ty - 4)
        (fun w hw hwA => hsz w (List.mem_cons_of_mem v hw) hwA)
      obtain ⟨hc1, hc2, hc3⟩ := hrec
      have heq : allocArrays (v :: vs) c =
          ({ v with memAddr := some (11, c - calculateVariableSize v.ty +
              calculateVariableSize v.ty - 4) } ::
            (allocArrays vs (c - calculateVariableSize v.ty - 4)).1,
           (allocArrays vs (c - calculateVariableSize v.ty - 4)).2) := by
        simp [allocArrays, hA]
      rw [heq]
      have hbase : c - calculateVariableSize v.ty + calculateVariableSize v.ty - 4 = c - 4 := by
        omega
      refine ⟨by simpa using le_trans hc1 (by omega), ?_, ?_⟩
      · intro w hw hwA
        rcases List.mem_cons.mp hw with hw | hw
        · subst hw
          exact ⟨c - 4, by simp [hbase], by omega, by omega⟩
        · obtain ⟨o, ho, h1, h2⟩ := hc2 w hw hwA
          exact ⟨o, ho, by simpa using h1, by omega⟩
      · rw [List.pairwise_cons]
        refine ⟨?_, hc3⟩
        intro w hw _ hwA
        obtain ⟨ow, how, hw1, hw2⟩ := hc2 w hw hwA
        intro b1 b2 o1 o2 he1 he2 _
        simp only [hbase] at he1
        have h1 : o1 = c - 4 := by
          simp at he1
          exact he1.2.symm
        have h2 : o2 = ow := by
          rw [how] at he2
          simp at he2
          exact he2.2.symm
        omega
    · have hrec := ih c (fun w hw hwA => hsz w (List.mem_cons_of_mem v hw) hwA)
      obtain ⟨hc1, hc2, hc3⟩ := hrec
      have heq : allocArrays (v :: vs) c =
          (v :: (allocArrays vs c).1, (allocArrays vs c).2) := by
        simp [allocArrays, hA]
      rw [heq]
      refine ⟨hc1, ?_, ?_⟩
      · intro w hw hwA
        rcases List.mem_cons.mp hw with hw | hw
        · subst hw
          exact absurd hwA hA
        · exact hc2 w hw hwA
      · rw [List.pairwise_cons]
        refine ⟨?_, hc3⟩
        intro w _ hvA
        exact absurd hvA hA

theorem calcSize_nonarray (ty : Option CType) (h : isArrayTy ty = false) :
    calculateVariableSize ty = 4 := by
  cases ty with
  | none => rfl
  | some t =>
    cases t with
    | array ts => simp [isArrayTy] at h
    | pointer => rfl
    | scalar => rfl

theorem allocScalars_spec (l : List LVar) (c B : Int)
    (hcB : c ≤ B)
    (hA : ∀ v ∈ l, isArrayTy v.ty = true → ∃ o, v.memAddr = some (11, o) ∧ B < o)
    (hAP : l.Pairwise
      (fun v w => isArrayTy v.ty = true → isArrayTy w.ty = true → distinctAddr v w)) :
    (allocScalars l c).2 ≤ c ∧
    (∀ v ∈ (allocScalars l c).1, ∃ o, v.memAddr = some (11, o) ∧
      (allocScalars l c).2 < o ∧
      (isArrayTy v.ty = true → B < o) ∧ (isArrayTy v.ty = false → o ≤ c)) ∧
    (∀ v ∈ (allocScalars l c).1, isArrayTy v.ty = true → v ∈ l) ∧
    (allocScalars l c).1.Pairwise distinctAddr := by
  induction l generalizing c with
  | nil =>
    refine ⟨le_refl c, ?_, ?_, ?_⟩
    · intro v hv; simp [allocScalars] at hv
    · intro v hv; simp [allocScalars] at hv
    · simp [allocScalars]
  | cons v vs ih =>
    have htailA : ∀ w ∈ vs, isArrayTy w.ty = true →
        ∃ o, w.memAddr = some (11, o) ∧ B < o :=
      fun w hw => hA w (List.mem_cons_of_mem v hw)
    have htailP := (List.pairwise_cons.mp hAP).2
    have hheadP := (List.pairwise_cons.mp hAP).1
    by_cases hAv : isArrayTy v.ty = true
    · have heq : allocScalars (v :: vs) c =
          (v :: (allocScalars vs c).1, (allocScalars vs c).2) := by
        simp [allocScalars, hAv]
      obtain ⟨o0, ho0, hBo0⟩ := hA v (List.mem_cons_self v vs) hAv
      obtain ⟨hc1, hc2, hc6, hc3⟩ := ih c hcB htailA htailP
      rw [heq]
      refine ⟨hc1, ?_, ?_, ?_⟩
      · intro w hw
        rcases List.mem_cons.mp hw with hw | hw
        · subst hw
          exact ⟨o0, ho0, by omega, fun _ => hBo0, fun habs => absurd hAv (by simp [habs])⟩
        · exact hc2 w hw
      · intro w hw hwA
        rcases List.mem_cons.mp hw with hw | hw
        · subst hw; exact List.mem_cons_self w vs
        · exact List.mem_cons_of_mem v (hc6 w hw hwA)
      · rw [List.pairwise_cons]
        refine ⟨?_, hc3⟩
        intro w hw
        by_cases hwA : isArrayTy w.ty = true
        · exact hheadP w (hc6 w hw hwA) hAv hwA
        · obtain ⟨ow, how, hw1, hw2, hw3⟩ := hc2 w hw
          have hwle : ow ≤ c := hw3 (by
            cases hx : isArrayTy w.ty
            · rfl
            · exact absurd hx hwA)
          intro b1 b2 o1 o2 he1 he2 _
          rw [ho0] at he1
          rw [how] at he2
          simp at he1 he2
          omega
    · have hAvf : isArrayTy v.ty = false := by
        cases hx : isArrayTy v.ty
        · rfl
        · exact absurd hx hAv
      have heq : allocScalars (v :: vs) c =
          ({ v with memAddr := some (11, c) } :: (allocScalars vs (c - calculateVariableSize v.ty)).1,
           (allocScalars vs (c - calculateVariableSize v.ty)).2) := by
        simp [allocScalars, hAvf]
      have hsize : calculateVariableSize v.ty = 4 := calcSize_nonarray v.ty hAvf
      obtain ⟨hc1, hc2, hc6, hc3⟩ := ih (c - calculateVariableSize v.ty)
        (by omega) htailA htailP
      rw [heq]
      refine ⟨by omega, ?_, ?_, ?_⟩
      · intro w hw
        rcases List.mem_cons.mp hw with hw | hw
        · subst hw
          refine ⟨c, by simp, by omega, ?_, fun _ => le_refl c⟩
          intro habs
          simp only [] at habs
          exact absurd habs hAv
        · obtain ⟨ow, how, hw1, hw2, hw3⟩ := hc2 w hw
          refine ⟨ow, how, hw1, hw2, ?_⟩
          intro hwf
          have := hw3 hwf
          omega
      · intro w hw hwA
        rcases List.mem_cons.mp hw with hw | hw
        · subst hw
          simp only [] at hwA
          exact absurd hwA hAv
        · exact List.mem_cons_of_mem v (hc6 w hw hwA)
      · rw [List.pairwise_cons]
        refine ⟨?_, hc3⟩
        intro w hw
        obtain ⟨ow, how, hw1, hw2, hw3⟩ := hc2 w hw
        have hwnc : ow ≠ c := by
          by_cases hwA : isArrayTy w.ty = true
          · have := hw2 hwA
            omega
          · have hwf : isArrayTy w.ty = false := by
              cases hx : isArrayTy w.ty
              · rfl
              · exact absurd hx hwA
            have := hw3 hwf
            omega
        intro b1 b2 o1 o2 he1 he2 _
        simp at he1
        rw [how] at he2
        simp at he2
        omega

theorem allocMems_spec (l : List LVar) (c : Int)
    (hsz : ∀ v ∈ l, 1 ≤ calculateVariableSize v.ty) :
    (allocMems l c).2 ≤ c ∧
    (∀ v ∈ (allocMems l c).1, ∃ o, v.memAddr = some (11, o) ∧
      (allocMems l c).2 < o ∧ o ≤ c) ∧
    (allocMems l c).1.Pairwise distinctAddr := by
  induction l generalizing c with
  | nil =>
    refine ⟨le_refl c, ?_, ?_⟩
    · intro v hv; simp [allocMems] at hv
    · simp [allocMems]
  | cons v vs ih =>
    have hs : 1 ≤ calculateVariableSize v.ty := hsz v (List.mem_cons_self v vs)
    obtain ⟨hc1, hc2, hc3⟩ := ih (c - calculateVariableSize v.ty)
      (fun w hw => hsz w (List.mem_cons_of_mem v hw))
    have heq : allocMems (v :: vs) c =
        ({ v with memAddr := some (11, c) } ::
          (allocMems vs (c - calculateVariableSize v.ty)).1,
         (allocMems vs (c - calculateVariableSize v.ty)).2) := by
      simp [allocMems]
    rw [heq]
    refine ⟨by omega, ?_, ?_⟩
    · intro w hw
      rcases List.mem_cons.mp hw with hw | hw
      · subst hw
        exact ⟨c, by simp, by omega, le_refl c⟩
      · obtain ⟨ow, how, hw1, hw2⟩ := hc2 w hw
        exact ⟨ow, how, hw1, by omega⟩
    · rw [List.pairwise_cons]
      refine ⟨?_, hc3⟩
      intro w hw
      obtain ⟨ow, how, hw1, hw2⟩ := hc2 w hw
      intro b1 b2 o1 o2 he1 he2 _
      simp at he1
      rw [how] at he2
      simp at he2
      omega

/-- The offsets of the variables that hold a memory address, in order. -/
def offsetsOf (l : List LVar) : List Int :=
  l.filterMap (fun v => v.memAddr.map Prod.snd)

theorem offsets_nodup (l : List LVar)
    (hall : ∀ v ∈ l, ∃ o, v.memAddr = some (11, o))
    (hp : l.Pairwise distinctAddr) : (offsetsOf l).Nodup := by
  induction l with
  | nil => simp [offsetsOf]
  | cons v vs ih =>
    obtain ⟨o, ho⟩ := hall v (List.mem_cons_self v vs)
    have hcons : offsetsOf (v :: vs) = o :: offsetsOf vs := by
      simp [offsetsOf, ho]
    rw [hcons, List.nodup_cons]
    obtain ⟨hhead, htail⟩ := List.pairwise_cons.mp hp
    refine ⟨?_, ih (fun w hw => hall w (List.mem_cons_of_mem v hw)) htail⟩
    intro habs
    obtain ⟨w, hw, hwo⟩ := List.mem_filterMap.mp habs
    obtain ⟨ow, how⟩ := hall w (List.mem_cons_of_mem v hw)
    rw [how] at hwo
    simp at hwo
    exact hhead w hw 11 11 o ow ho how rfl (by omega)

/-- The size of the group of an offset in the offset map. -/
def omCount (m : List (Int × List String)) (off : Int) : Nat :=
  match m.find? (fun p => p.1 == off) with
  | some p => p.2.length
  | none => 0

theorem omCount_insert_self (m : List (Int × List String)) (off : Int) (info : String) :
    omCount (omInsert m off info) off = omCount m off + 1 := by
  induction m with
  | nil => simp [omInsert, omCount, List.find?]
  | cons p m ih =>
    by_cases hp : (p.1 == off) = true
    · simp [omInsert, hp, omCount, List.find?]
    · have hp2 : (p.1 == off) = false := by
        cases hx : p.1 == off
        · rfl
        · exact absurd hx hp
      have hins : omInsert (p :: m) off info = p :: omInsert m off info := by
        simp [omInsert, hp2]
      rw [hins]
      simp only [omCount, List.find?, hp2]
      exact ih

theorem omCount_insert_other (m : List (Int × List String)) (off off2 : Int) (info : String)
    (h : off2 ≠ off) : omCount (omInsert m off info) off2 = omCount m off2 := by
  induction m with
  | nil =>
    simp only [omInsert, omCount, List.find?]
    have : ((off : Int) == off2) = false := by
      simp [Ne.symm h]
    simp [this]
  | cons p m ih =>
    by_cases hp : (p.1 == off) = true
    · have hpo : p.1 = off := by simpa using hp
      have hne : (p.1 == off2) = false := by
        simp [hpo, Ne.symm h]
      simp only [omInsert, if_pos hp]
      simp only [omCount, List.find?, hne]
    · have hp2 : (p.1 == off) = false := by
        cases hx : p.1 == off
        · rfl
        · exact absurd hx hp
      have hins : omInsert (p :: m) off info = p :: omInsert m off info := by
        simp [omInsert, hp2]
      rw [hins]
      by_cases hq : (p.1 == off2) = true
      · simp only [omCount, List.find?, hq]
      · have hq2 : (p.1 == off2) = false := by
          cases hx : p.1 == off2
          · rfl
          · exact absurd hx hq
        simp only [omCount, List.find?, hq2]
        exact ih

theorem omInsert_keys (m : List (Int × List String)) (off : Int) (info : String) :
    (omInsert m off info).map Prod.fst =
      if off ∈ m.map Prod.fst then m.map Prod.fst else m.map Prod.fst ++ [off] := by
  induction m with
  | nil => simp [omInsert]
  | cons p m ih =>
    by_cases hp : (p.1 == off) = true
    · have hpo : p.1 = off := by simpa using hp
      simp [omInsert, hp, hpo]
    · have hp2 : (p.1 == off) = false := by
        cases hx : p.1 == off
        · rfl
        · exact absurd hx hp
      have hpo : p.1 ≠ off := by simpa using hp2
      have hins : omInsert (p :: m) off info = p :: omInsert m off info := by
        simp [omInsert, hp2]
      rw [hins]
      simp only [List.map_cons, ih]
      by_cases hmem : off ∈ m.map Prod.fst
      · simp [hmem, Ne.symm hpo]
      · simp [hmem, Ne.symm hpo]

theorem omInsert_keysNodup (m : List (Int × List String)) (off : Int) (info : String)
    (h : (m.map Prod.fst).Nodup) : ((omInsert m off info).map Prod.fst).Nodup := by
  rw [omInsert_keys]
  by_cases hmem : off ∈ m.map Prod.fst
  · simp [hmem, h]
  · simp [hmem, h, List.nodup_append]

theorem find?_of_keysNodup (m : List (Int × List String)) (p : Int × List String)
    (hkeys : (m.map Prod.fst).Nodup) (hp : p ∈ m) :
    m.find? (fun q => q.1 == p.1) = some p := by
  induction m with
  | nil => cases hp
  | cons q m ih =>
    rcases List.mem_cons.mp hp with hq | hq
    · subst hq
      simp [List.find?]
    · by_cases he : (q.1 == p.1) = true
      · exfalso
        have hq1 : q.1 = p.1 := by simpa using he
        have : p.1 ∈ m.map Prod.fst := List.mem_map.mpr ⟨p, hq, rfl⟩
        rw [List.map_cons, List.nodup_cons] at hkeys
        exact hkeys.1 (hq1 ▸ this)
      · have he2 : (q.1 == p.1) = false := by
          cases hx : q.1 == p.1
          · rfl
          · exact absurd hx he
        simp only [List.find?, he2]
        rw [List.map_cons, List.nodup_cons] at hkeys
        exact ih hkeys.2 hq

theorem noConflict_of_counts (m : List (Int × List String))
    (hkeys : (m.map Prod.fst).Nodup)
    (h : ∀ off, omCount m off ≤ 1) :
    m.any (fun p => 1 < p.2.length) = false := by
  by_contra habs
  have hany : m.any (fun p => 1 < p.2.length) = true := by
    cases hx : m.any (fun p => 1 < p.2.length)
    · exact absurd hx habs
    · rfl
  obtain ⟨p, hp, hlen⟩ := List.any_eq_true.mp hany
  have hfind := find?_of_keysNodup m p hkeys hp
  have : omCount m p.1 = p.2.length := by
    simp [omCount, hfind]
  have hle := h p.1
  rw [this] at hle
  simp at hlen
  omega

theorem omCollect_count (vars : List LVar) (m : List (Int × List String)) (off : Int) :
    omCount (omCollect m vars) off = omCount m off + (offsetsOf vars).count off := by
  induction vars generalizing m with
  | nil => simp [omCollect, offsetsOf]
  | cons v vs ih =>
    cases hv : v.memAddr with
    | none =>
      have h1 : omCollect m (v :: vs) = omCollect m vs := by
        simp [omCollect, hv]
      have h2 : offsetsOf (v :: vs) = offsetsOf vs := by
        simp [offsetsOf, hv]
      rw [h1, h2, ih]
    | some bo =>
      have h1 : omCollect m (v :: vs) = omCollect (omInsert m bo.2 v.name) vs := by
        simp [omCollect, hv]
      have h2 : offsetsOf (v :: vs) = bo.2 :: offsetsOf vs := by
        simp [offsetsOf, hv]
      rw [h1, h2, ih]
      by_cases ho : off = bo.2
      · subst ho
        rw [omCount_insert_self]
        simp [List.count_cons]
        omega
      · rw [omCount_insert_other m bo.2 off v.name ho]
        have : (bo.2 == off) = false := by simp [Ne.symm ho]
        simp [List.count_cons, this]

theorem omCollect_keysNodup (vars : List LVar) (m : List (Int × List String))
    (h : (m.map Prod.fst).Nodup) : ((omCollect m vars).map Prod.fst).Nodup := by
  induction vars generalizing m with
  | nil => exact h
  | cons v vs ih =>
    cases hv : v.memAddr with
    | none =>
      have h1 : omCollect m (v :: vs) = omCollect m vs := by
        simp [omCollect, hv]
      rw [h1]
      exact ih m h
    | some bo =>
      have h1 : omCollect m (v :: vs) = omCollect (omInsert m bo.2 v.name) vs := by
        simp [omCollect, hv]
      rw [h1]
      exact ih _ (omInsert_keysNodup m bo.2 v.name h)

theorem phases_good (vars mems : List LVar)
    (hszV : ∀ v ∈ vars, isArrayTy v.ty = true → 1 ≤ calculateVariableSize v.ty)
    (hszM : ∀ v ∈ mems, 1 ≤ calculateVariableSize v.ty) :
    ((allocScalars (allocArrays vars (-4)).1 (allocArrays vars (-4)).2).1 ++
     (allocMems mems
       (allocScalars (allocArrays vars (-4)).1 (allocArrays vars (-4)).2).2).1).Pairwise
      distinctAddr ∧
    (offsetsOf
      ((allocScalars (allocArrays vars (-4)).1 (allocArrays vars (-4)).2).1 ++
       (allocMems mems
         (allocScalars (allocArrays vars (-4)).1 (allocArrays vars (-4)).2).2).1)).Nodup := by
  obtain ⟨hP1, hP2, hP3⟩ := allocArrays_spec vars (-4) hszV
  obtain ⟨hS1, hS2, hS6, hS3⟩ := allocScalars_spec (allocArrays vars (-4)).1
    (allocArrays vars (-4)).2 (allocArrays vars (-4)).2 (le_refl _)
    (fun v hv hva => by
      obtain ⟨o, h1, h2, _⟩ := hP2 v hv hva
      exact ⟨o, h1, h2⟩)
    hP3
  obtain ⟨hM1, hM2, hM3⟩ := allocMems_spec mems
    (allocScalars (allocArrays vars (-4)).1 (allocArrays vars (-4)).2).2 hszM
  have hcross : ∀ v ∈ (allocScalars (allocArrays vars (-4)).1 (allocArrays vars (-4)).2).1,
      ∀ w ∈ (allocMems mems
        (allocScalars (allocArrays vars (-4)).1 (allocArrays vars (-4)).2).2).1,
      distinctAddr v w := by
    intro v hv w hw
    obtain ⟨ov, hov, hv1, hv2, hv3⟩ := hS2 v hv
    obtain ⟨ow, how, hw1, hw2⟩ := hM2 w hw
    intro b1 b2 o1 o2 he1 he2 _
    rw [hov] at he1
    rw [how] at he2
    simp at he1 he2
    omega
  have hpair :
      ((allocScalars (allocArrays vars (-4)).1 (allocArrays vars (-4)).2).1 ++
       (allocMems mems
         (allocScalars (allocArrays vars (-4)).1 (allocArrays vars (-4)).2).2).1).Pairwise
        distinctAddr := by
    rw [List.pairwise_append]
    exact ⟨hS3, hM3, hcross⟩
  have hall : ∀ v ∈ ((allocScalars (allocArrays vars (-4)).1 (allocArrays vars (-4)).2).1 ++
      (allocMems mems
        (allocScalars (allocArrays vars (-4)).1 (allocArrays vars (-4)).2).2).1),
      ∃ o, v.memAddr = some (11, o) := by
    intro v hv
    rcases List.mem_append.mp hv with hv | hv
    · obtain ⟨o, ho, _⟩ := hS2 v hv
      exact ⟨o, ho⟩
    · obtain ⟨o, ho, _⟩ := hM2 v hv
      exact ⟨o, ho⟩
  exact ⟨hpair, offsets_nodup _ hall hpair⟩

theorem validate_of_nodup (vars2 mems2 : List LVar)
    (hnd : (offsetsOf (vars2 ++ mems2)).Nodup) :
    (!((omCollect (omCollect [] vars2) mems2).any (fun p => 1 < p.2.length))) = true := by
  have hcount : ∀ off, omCount (omCollect (omCollect [] vars2) mems2) off ≤ 1 := by
    intro off
    rw [omCollect_count, omCollect_count]
    have h0 : omCount [] off = 0 := rfl
    rw [h0]
    have hle : (offsetsOf (vars2 ++ mems2)).count off ≤ 1 :=
      List.nodup_iff_count_le_one.mp hnd off
    have hsplit : offsetsOf (vars2 ++ mems2) = offsetsOf vars2 ++ offsetsOf mems2 := by
      simp [offsetsOf, List.filterMap_append]
    rw [hsplit, List.count_append] at hle
    omega
  have hkeys := omCollect_keysNodup mems2 (omCollect [] vars2)
    (omCollect_keysNodup vars2 [] (by simp))
  have hnc := noConflict_of_counts _ hkeys hcount
  simp [hnc]

/-- C2: after reallocateMemory runs on a not-yet-fixed function whose
variables all have positive sizes, any two distinct variables that share a
base register have different byte offsets, and validateMemoryAllocation
reports no conflicts. (The validator groups by offset alone; after
reallocation every base register is the frame pointer, so that coincides
with grouping by (base register, offset).) -/
theorem C2_reallocate_no_conflicts (f : FuncMem)
    (hfix : f.memoryFixed = false)
    (hsz : ∀ v ∈ f.varsVector ++ f.memVector, 1 ≤ calculateVariableSize v.ty) :
    ((reallocateMemory f).varsVector ++ (reallocateMemory f).memVector).Pairwise distinctAddr ∧
    validateMemoryAllocation (reallocateMemory f) = true := by
  have hszV : ∀ v ∈ f.varsVector, isArrayTy v.ty = true → 1 ≤ calculateVariableSize v.ty :=
    fun v hv _ => hsz v (List.mem_append_left _ hv)
  have hszM : ∀ v ∈ f.memVector, 1 ≤ calculateVariableSize v.ty :=
    fun v hv => hsz v (List.mem_append_right _ hv)
  obtain ⟨hpair, hnd⟩ := phases_good f.varsVector f.memVector hszV hszM
  have hev : (reallocateMemory f).varsVector =
      (allocScalars (allocArrays f.varsVector (-4)).1 (allocArrays f.varsVector (-4)).2).1 := by
    simp [reallocateMemory, hfix]
  have hem : (reallocateMemory f).memVector =
      (allocMems f.memVector
        (allocScalars (allocArrays f.varsVector (-4)).1 (allocArrays f.varsVector (-4)).2).2).1 := by
    simp [reallocateMemory, hfix]
  constructor
  · rw [hev, hem]
    exact hpair
  · simp only [validateMemoryAllocation]
    rw [hev, hem]
    exact validate_of_nodup _ _ hnd

/-- Witness for C2 on the spec's scenario: two scalar locals and one 2x3
int array (24 bytes) plus one memory variable. -/
theorem C2_reallocate_no_conflicts_witness :
    ((reallocateMemory
        ⟨[⟨"x", some CType.scalar, none⟩, ⟨"b", some (CType.array 24), none⟩,
          ⟨"y", some CType.scalar, none⟩],
         [⟨"m1", some CType.pointer, none⟩], false, 0⟩).varsVector ++
     (reallocateMemory
        ⟨[⟨"x", some CType.scalar, none⟩, ⟨"b", some (CType.array 24), none⟩,
          ⟨"y", some CType.scalar, none⟩],
         [⟨"m1", some CType.pointer, none⟩], false, 0⟩).memVector).Pairwise distinctAddr ∧
    validateMemoryAllocation (reallocateMemory
        ⟨[⟨"x", some CType.scalar, none⟩, ⟨"b", some (CType.array 24), none⟩,
          ⟨"y", some CType.scalar, none⟩],
         [⟨"m1", some CType.pointer, none⟩], false, 0⟩) = true :=
  C2_reallocate_no_conflicts
    ⟨[⟨"x", some CType.scalar, none⟩, ⟨"b", some (CType.array 24), none⟩,
      ⟨"y", some CType.scalar, none⟩],
     [⟨"m1", some CType.pointer, none⟩], false, 0⟩
    rfl (by decide)

/-! ## load_var / store_var (ILocArm32.cpp) and claim C9 -/

/-- ILocArm32::load_var: constants are materialized with load_imm; a value
with a load-register or fixed-register binding is moved (or elided when the
registers coincide); a global is loaded through its symbol, dereferenced
unless it is an array; otherwise a valid memory address is loaded with
load_base, and a value with no binding at all degrades to a warning comment
followed by loading the constant zero. -/
def load_var (rs : Int) (v : VInfo) : List ArmInst :=
  match v.kind with
  | VKind.constInt c => load_imm rs c
  | _ =>
    if v.loadRegId ≠ -1 then
      if v.loadRegId ≠ rs then mov_reg rs v.loadRegId else []
    else if v.regId ≠ -1 then
      if v.regId ≠ rs then mov_reg rs v.regId else []
    else if v.kind = VKind.globalVar then
      load_symbol rs v.name ++
        (if isArrayTy v.ty then [commentInst "全局数组：使用地址"]
         else [commentInst "全局变量：加载值",
               emit1 "ldr" (regName rs) ("[" ++ regName rs ++ "]")])
    else
      match v.memAddr with
      | some (b, o) =>
        if b ≠ -1 ∧ o ≠ -1 then load_base rs b o
        else commentInst ("警告: 变量 " ++ v.name ++ " 无有效地址，设为0") ::
          load_imm rs 0
      | none => commentInst ("警告: 变量 " ++ v.name ++ " 无有效地址，设为0") ::
          load_imm rs 0

/-- ILocArm32::store_var: a destination with a load-register or
fixed-register binding receives a register move (elided when the registers
coincide); a global is stored through its symbol via the temporary register;
a valid memory address is stored with store_base; a destination with no
binding at all degrades to two comments and no machine instruction. -/
def store_var (src : Int) (v : VInfo) (tmp : Int) : List ArmInst :=
  if v.loadRegId ≠ -1 then
    if src ≠ v.loadRegId then mov_reg v.loadRegId src else []
  else if v.regId ≠ -1 then
    if src ≠ v.regId then mov_reg v.regId src else []
  else if v.kind = VKind.globalVar then
    load_symbol tmp v.name ++
      [emit1 "str" (regName src) ("[" ++ regName tmp ++ "]")]
  else
    match v.memAddr with
    | some (b, o) =>
      if b ≠ -1 ∧ o ≠ -1 then store_base src b o tmp
      else [commentInst ("临时变量 " ++ v.name ++ " 无内存地址，尝试寄存器存储"),
            commentInst ("跳过临时变量 " ++ v.name ++ " 的存储")]
    | none => [commentInst ("临时变量 " ++ v.name ++ " 无内存地址，尝试寄存器存储"),
               commentInst ("跳过临时变量 " ++ v.name ++ " 的存储")]

/-- C9 (corrected): the emission layer is total (load_var and store_var are
plain functions that always return an instruction list), but an operand with
no register binding, no global symbol and no valid memory address does not
degrade to empty output: load_var emits a warning comment followed by code
loading the constant zero into the destination register, while store_var
emits exactly two comments and no machine instruction. -/
theorem C9_emission_failure_semantics (rs src tmp : Int) (v : VInfo)
    (hk : v.kind = VKind.plain) (hl : v.loadRegId = -1) (hr : v.regId = -1)
    (hm : v.memAddr = none) :
    load_var rs v =
      commentInst ("警告: 变量 " ++ v.name ++ " 无有效地址，设为0") ::
        load_imm rs 0 ∧
    store_var src v tmp =
      [commentInst ("临时变量 " ++ v.name ++ " 无内存地址，尝试寄存器存储"),
       commentInst ("跳过临时变量 " ++ v.name ++ " 的存储")] ∧
    load_var rs v ≠ [] := by
  refine ⟨?_, ?_, ?_⟩
  · simp [load_var, hk, hl, hr, hm]
  · simp [store_var, hk, hl, hr, hm]
  · simp [load_var, hk, hl, hr, hm]

/-- Witness for C9 at a concrete unbound temporary. -/
theorem C9_emission_failure_semantics_witness :
    load_var 0 ⟨"t5", VKind.plain, none, -1, -1, none⟩ =
      commentInst ("警告: 变量 " ++ "t5" ++ " 无有效地址，设为0") ::
        load_imm 0 0 ∧
    store_var 1 ⟨"t5", VKind.plain, none, -1, -1, none⟩ 10 =
      [commentInst ("临时变量 " ++ "t5" ++ " 无内存地址，尝试寄存器存储"),
       commentInst ("跳过临时变量 " ++ "t5" ++ " 的存储")] ∧
    load_var 0 ⟨"t5", VKind.plain, none, -1, -1, none⟩ ≠ [] :=
  C9_emission_failure_semantics 0 1 10 ⟨"t5", VKind.plain, none, -1, -1, none⟩
    rfl rfl rfl rfl

/-- C9 counterexample: for the unbound temporary t5, load_var does not
return empty output — its output even contains a non-comment machine
instruction (movw of zero). -/
theorem C9_counterexample :
    load_var 0 ⟨"t5", VKind.plain, none, -1, -1, none⟩ ≠ [] ∧
    (load_var 0 ⟨"t5", VKind.plain, none, -1, -1, none⟩).filter
      (fun a => a.opcode ≠ "@") = [movwInst 0 0] := by
  constructor
  · simp [load_var]
  · simp [load_var, load_imm, movwInst, upper16, bits32, commentInst, emit0, emit1]

/-! ## Instruction selector (InstSelectorArm32.cpp): assignment and call -/

/-- InstSelectorArm32::isTempVariable(const std::string&): empty names and
t-initial names are temporaries; l<digits> names classify by the number
(above 5 is temporary); otherwise names containing "tmp", "temp" or "_t"
are temporaries. -/
def isTempVariableSel (name : String) : Bool :=
  if name = "" then true
  else if firstChar name = 't' then true
  else if firstChar name = 'l' && 1 < name.data.length then
    match parseNatChars (name.data.drop 1) with
    | some num => decide (5 < num)
    | none => strContains name "tmp" || strContains name "temp" || strContains name "_t"
  else strContains name "tmp" || strContains name "temp" || strContains name "_t"

/-- The selector's mutable context: the Value store, the shared register
allocator, the code emitted so far, the selector's own current instruction
index, the ARG counter, and the function's source of fresh memory
variables (the size of memVector). -/
structure Sel where
  st : Store
  a : AllocState
  code : List ArmInst
  curIdx : Int
  realArgCount : Int
  nextMemId : Nat

/-- Append freshly emitted instructions. -/
def selEmit (s : Sel) (l : List ArmInst) : Sel := { s with code := s.code ++ l }

/-- InstSelectorArm32::storeOrKeepInRegister: a temporary keeps its load
register (and is additionally stored when its lifetime has ended and it has
a memory address); a non-temporary is stored to memory. -/
def storeOrKeepInRegister (s : Sel) (v : Nat) (regId : Int) : Sel :=
  if isTempVariableSel (s.st v).name then
    let s1 := selEmit { s with st := setLoadReg s.st v regId }
      [commentInst ("临时变量保持在寄存器: " ++ (s.st v).name ++ " -> " ++ regName regId)]
    if !willBeUsedLater s1.a v (s1.curIdx + 1) then
      if (s1.st v).memAddr.isSome then
        selEmit s1 (store_var regId (s1.st v) ARM32_TMP_REG_NO ++
          [commentInst ("临时变量存储到内存: " ++ (s1.st v).name)])
      else s1
    else s1
  else
    selEmit s (store_var regId (s.st v) ARM32_TMP_REG_NO ++
      [commentInst ("变量存储到内存: " ++ (s.st v).name)])

/-- InstSelectorArm32::handleConstantAssignment: dynamically allocate a
register for the destination and load the constant there, else spill
through a scratch register. -/
def handleConstantAssignment (s : Sel) (result : Nat) (c : Int) : Sel :=
  let q := dynamicAllocateTemp s.st s.a (some result) s.curIdx
  let s1 := { s with st := q.1, a := q.2.1 }
  let regId := q.2.2
  if regId ≠ -1 then
    let s2 := selEmit s1 (load_imm regId c ++
      [commentInst ("常量分配: " ++ intToString c ++ " -> " ++ regName regId)])
    storeOrKeepInRegister s2 result regId
  else
    let q2 := Allocate s1.st s1.a none (-1)
    let s2 := { s1 with st := q2.1, a := q2.2.1 }
    let tempReg := q2.2.2
    let s3 := selEmit s2 (load_imm tempReg c ++
      store_var tempReg (s2.st result) ARM32_TMP_REG_NO)
    let p := freeReg s3.st s3.a tempReg
    selEmit { s3 with st := p.1, a := p.2 }
      [commentInst ("常量溢出到内存: " ++ intToString c ++ " -> " ++ (p.1 result).name)]

/-- InstSelectorArm32::handleRegisterToMemory. -/
def handleRegisterToMemory (s : Sel) (srcReg : Int) (dest : Nat) : Sel :=
  selEmit s (store_var srcReg (s.st dest) ARM32_TMP_REG_NO ++
    [commentInst ("寄存器到内存: " ++ regName srcReg ++ " -> " ++ (s.st dest).name)])

/-- InstSelectorArm32::handleMemoryToRegister. -/
def handleMemoryToRegister (s : Sel) (src : Nat) (destReg : Int) : Sel :=
  selEmit s (load_var destReg (s.st src) ++
    [commentInst ("内存到寄存器: " ++ (s.st src).name ++ " -> " ++ regName destReg)])

/-- InstSelectorArm32::handleMemoryToMemory: load into a scratch register,
store, release the scratch register. -/
def handleMemoryToMemory (s : Sel) (result arg1 : Nat) : Sel :=
  let q := Allocate s.st s.a none (-1)
  let s1 := { s with st := q.1, a := q.2.1 }
  let tempReg := q.2.2
  let s2 := selEmit s1 (load_var tempReg (s1.st arg1) ++
    store_var tempReg (s1.st result) ARM32_TMP_REG_NO)
  let p := freeReg s2.st s2.a tempReg
  selEmit { s2 with st := p.1, a := p.2 }
    [commentInst ("内存到内存赋值: " ++ (p.1 arg1).name ++ " -> " ++ (p.1 result).name)]

/-- InstSelectorArm32::handleTempVariableAssignment: dynamically allocate a
register for the destination temporary and move or load the source into it,
else fall back to memory-to-memory. -/
def handleTempVariableAssignment (s : Sel) (result arg1 : Nat) : Sel :=
  let q := dynamicAllocateTemp s.st s.a (some result) s.curIdx
  let s1 := { s with st := q.1, a := q.2.1 }
  let resultReg := q.2.2
  if resultReg ≠ -1 then
    let s2 :=
      if (s1.st arg1).loadRegId ≠ -1 then
        selEmit s1 [emit1 "mov" (regName resultReg) (regName (s1.st arg1).loadRegId),
          commentInst ("临时变量寄存器赋值: " ++ (s1.st arg1).name ++ " -> " ++ (s1.st result).name)]
      else
        selEmit (handleMemoryToRegister s1 arg1 resultReg)
          [commentInst ("临时变量内存->寄存器: " ++ (s1.st arg1).name ++ " -> " ++ (s1.st result).name)]
    { s2 with st := setLoadReg s2.st result resultReg }
  else
    let s2 := selEmit s1 [commentInst ("临时变量分配失败，回退到内存: " ++ (s1.st result).name)]
    handleMemoryToMemory s2 result arg1

/-- InstSelectorArm32::getValueInRegister: an existing load register is
reused; constants and globals are materialized into a scratch register;
temporaries try dynamic allocation (loading from memory when an address
exists, else loading -1 after an error comment); everything else falls back
to a traditional allocation plus load. -/
def getValueInRegister (s : Sel) (v : Nat) : Sel × Int :=
  if (s.st v).loadRegId ≠ -1 then (s, (s.st v).loadRegId)
  else
    match (s.st v).kind with
    | VKind.constInt c =>
      let q := Allocate s.st s.a none (-1)
      (selEmit { s with st := q.1, a := q.2.1 } (load_imm q.2.2 c), q.2.2)
    | VKind.globalVar =>
      let q := Allocate s.st s.a none (-1)
      (selEmit { s with st := q.1, a := q.2.1 }
        [emit1 "ldr" (regName q.2.2) ("=" ++ (s.st v).name),
         commentInst ("加载全局变量: " ++ (s.st v).name)], q.2.2)
    | _ =>
      if isTempVariableSel (s.st v).name then
        let q := dynamicAllocateTemp s.st s.a (some v) s.curIdx
        if q.2.2 ≠ -1 then
          let s1 := { s with st := q.1, a := q.2.1 }
          let s2 :=
            if (s1.st v).memAddr.isSome then selEmit s1 (load_var q.2.2 (s1.st v))
            else selEmit s1 (commentInst ("错误: 临时变量无地址: " ++ (s1.st v).name) ::
              load_imm q.2.2 (-1))
          ({ s2 with st := setLoadReg s2.st v q.2.2 }, q.2.2)
        else
          let q2 := Allocate q.1 q.2.1 (some v) (-1)
          (selEmit { s with st := q2.1, a := q2.2.1 } (load_var q2.2.2 (q2.1 v)), q2.2.2)
      else
        let q2 := Allocate s.st s.a (some v) (-1)
        (selEmit { s with st := q2.1, a := q2.2.1 } (load_var q2.2.2 (q2.1 v)), q2.2.2)

/-- InstSelectorArm32::getOrAllocateRegister. -/
def getOrAllocateRegister (s : Sel) (v : Nat) : Sel × Int :=
  if (s.st v).loadRegId ≠ -1 then (s, (s.st v).loadRegId)
  else if isTempVariableSel (s.st v).name then
    let q := dynamicAllocateTemp s.st s.a (some v) s.curIdx
    if q.2.2 ≠ -1 then ({ s with st := q.1, a := q.2.1 }, q.2.2)
    else
      let q2 := Allocate q.1 q.2.1 (some v) (-1)
      ({ s with st := q2.1, a := q2.2.1 }, q2.2.2)
  else
    let q2 := Allocate s.st s.a (some v) (-1)
    ({ s with st := q2.1, a := q2.2.1 }, q2.2.2)

/-- InstSelectorArm32::releaseValueRegister: free only temporaries whose
lifetime has ended. -/
def releaseValueRegister (s : Sel) (v : Nat) : Sel :=
  if isTempVariableSel (s.st v).name then
    if !willBeUsedLater s.a v (s.curIdx + 1) then
      let p := freeValue s.st s.a v
      { s with st := p.1, a := p.2 }
    else s
  else s

/-- A MoveInstruction as translate_assign reads it: destination, source and
the pointer-store/pointer-load flags. -/
structure MoveInst where
  dst : Nat
  src : Nat
  isPtrStore : Bool
  isPtrLoad : Bool

/-- InstSelectorArm32::translate_assign: pointer stores and loads go
through the register helpers; otherwise constants, register-to-register,
register/memory mixes, temporary-variable assignment and memory-to-memory
are handled in that order. -/
def translate_assign (s : Sel) (mv : MoveInst) : Sel :=
  if mv.isPtrStore then
    let s0 := selEmit s [commentInst "数组元素赋值: *ptr = value"]
    let p1 := getValueInRegister s0 mv.dst
    let p2 := getValueInRegister p1.1 mv.src
    let s3 := selEmit p2.1
      [emit1 "str" (regName p2.2) ("[" ++ regName p1.2 ++ "]")]
    releaseValueRegister (releaseValueRegister s3 mv.dst) mv.src
  else if mv.isPtrLoad then
    let s0 := selEmit s [commentInst "数组元素访问: result = *ptr"]
    let p1 := getValueInRegister s0 mv.src
    let p2 := getOrAllocateRegister p1.1 mv.dst
    let s3 := selEmit p2.1
      [emit1 "ldr" (regName p2.2) ("[" ++ regName p1.2 ++ "]")]
    storeOrKeepInRegister (releaseValueRegister s3 mv.src) mv.dst p2.2
  else
    let s0 := selEmit s
      [commentInst ("赋值操作: " ++ (s.st mv.dst).name ++ " = " ++ (s.st mv.src).name)]
    match (s0.st mv.src).kind with
    | VKind.constInt c => handleConstantAssignment s0 mv.dst c
    | _ =>
      let arg1L := (s0.st mv.src).loadRegId
      let resultL := (s0.st mv.dst).loadRegId
      if arg1L ≠ -1 ∧ resultL ≠ -1 then
        if arg1L ≠ resultL then
          selEmit s0 [emit1 "mov" (regName resultL) (regName arg1L),
            commentInst ("寄存器赋值: " ++ regName arg1L ++ " -> " ++ regName resultL)]
        else s0
      else if arg1L ≠ -1 then handleRegisterToMemory s0 arg1L mv.dst
      else if resultL ≠ -1 then handleMemoryToRegister s0 mv.src resultL
      else if isTempVariableSel (s0.st mv.dst).name ||
          isTempVariableSel (s0.st mv.src).name then
        handleTempVariableAssignment s0 mv.dst mv.src
      else handleMemoryToMemory s0 mv.dst mv.src

/-- Modelled from the spec: PlatformArm32::intRegVal[k], the call-convention
register variable for register k: it is permanently bound to its register,
so both its fixed register id and its load register id are k. The embedding
reserves store indices 1000+k for these values. -/
def intRegValId (k : Nat) : Nat := 1000 + k

/-- Modelled from the spec: the contents of PlatformArm32::intRegVal[k]. -/
def intRegValInfo (k : Nat) : VInfo :=
  ⟨"r" ++ natToString k, VKind.regVar, none, Int.ofNat k, Int.ofNat k, none⟩

/-- Modelled from the spec: Function::newMemVariable plus the MemVariable
constructor: a fresh memory-resident value of the given type with no name
of its own, no register binding and no address yet; the caller then binds
its address. The naming of memory variables is not visible in the shipped
sources, so it is a parameter. -/
def newMemVariable (memName : Nat → String) (s : Sel) (ty : CType) : Sel × Nat :=
  let id := s.nextMemId
  ({ s with
      st := fun w => if w = id then ⟨memName id, VKind.plain, some ty, -1, -1, none⟩
            else s.st w,
      nextMemId := id + 1 }, id)

/-- Force-occupy one argument register (the Allocate(int32_t) calls of
translate_call). -/
def selForce (s : Sel) (no : Int) : Sel :=
  let p := AllocateForce s.st s.a no
  { s with st := p.1, a := p.2 }

/-- Release one argument register (the free(int32_t) calls of
translate_call). -/
def selFree (s : Sel) (no : Int) : Sel :=
  let p := freeReg s.st s.a no
  { s with st := p.1, a := p.2 }

/-- A FuncCallInstruction as translate_call reads it: callee name, argument
operands, the call's own value id and whether the callee returns a value. -/
structure CallInst where
  name : String
  operands : List Nat
  vid : Nat
  hasResult : Bool

/-- InstSelectorArm32::translate_call: when there are arguments, force-
occupy r0-r3, assign each argument beyond the fourth to a fresh memory
variable at ascending sp-relative offsets, assign the first four arguments
to the call-convention register values, emit the call, release r0-r3, and
move r0 into the destination when the callee returns a value. The argument-
count mismatch check only logs and emits nothing. -/
def translate_call (memName : Nat → String) (s : Sel) (ci : CallInst) : Sel :=
  let operandNum := ci.operands.length
  let s1 :=
    if operandNum ≠ 0 then
      let sA := selForce (selForce (selForce (selForce s 0) 1) 2) 3
      let sB := ((ci.operands.drop 4).foldl
        (fun (acc : Sel × Int) arg =>
          let pN := newMemVariable memName acc.1 CType.pointer
          let sN := { pN.1 with
            st := setMemAddr pN.1.st pN.2 ARM32_SP_REG_NO acc.2 }
          (translate_assign sN ⟨pN.2, arg, false, false⟩, acc.2 + 4))
        (sA, 0)).1
      (ci.operands.take 4).enum.foldl
        (fun sacc p => translate_assign sacc ⟨intRegValId p.1, p.2, false, false⟩) sB
    else s
  let s2 := selEmit s1 (call_fun ci.name)
  let s3 := if operandNum ≠ 0 then selFree (selFree (selFree (selFree s2 0) 1) 2) 3
            else s2
  let s4 := if ci.hasResult then translate_assign s3 ⟨ci.vid, intRegValId 0, false, false⟩
            else s3
  { s4 with realArgCount := 0 }

/-- The value store of the C6 scenario: store indices 1-5 hold the integer
constants 1-5 (the arguments of f(1,2,3,4,5)) and indices 1000-1003 hold
the call-convention register values r0-r3. -/
def C6store : Store := fun w =>
  if 1000 ≤ w ∧ w ≤ 1003 then intRegValInfo (w - 1000)
  else if 1 ≤ w ∧ w ≤ 5 then
    ⟨intToString (Int.ofNat w), VKind.constInt (Int.ofNat w), none, -1, -1, none⟩
  else ⟨"", VKind.plain, none, -1, -1, none⟩

/-- The selector context of the C6 scenario: clean allocator, no code yet,
five counted arguments, fresh memory ids from 100. -/
def C6sel : Sel := ⟨C6store, initAllocState, [], 0, 5, 100⟩

/-- C6 (code bug): translating the call f(1,2,3,4,5) from a clean selector
and allocator emits no str instruction at all — the fifth argument is never
written to its sp-relative stack slot. handleConstantAssignment parks the
constant in a dynamically allocated register, which sets the memory
variable's load register, and store_var's load-register fast path then
swallows the store because source and destination registers coincide. The
call itself and the four register-argument loads are emitted. -/
theorem C6_call_stack_args_bug :
    (translate_call (fun _ => "") C6sel ⟨"f", [1, 2, 3, 4, 5], 50, false⟩).code.filter
      (fun i => i.opcode = "str") = [] ∧
    emit0 "bl" "f" ∈ (translate_call (fun _ => "") C6sel
      ⟨"f", [1, 2, 3, 4, 5], 50, false⟩).code ∧
    movwInst 0 1 ∈ (translate_call (fun _ => "") C6sel
      ⟨"f", [1, 2, 3, 4, 5], 50, false⟩).code ∧
    movwInst 1 2 ∈ (translate_call (fun _ => "") C6sel
      ⟨"f", [1, 2, 3, 4, 5], 50, false⟩).code ∧
    movwInst 2 3 ∈ (translate_call (fun _ => "") C6sel
      ⟨"f", [1, 2, 3, 4, 5], 50, false⟩).code ∧
    movwInst 3 4 ∈ (translate_call (fun _ => "") C6sel
      ⟨"f", [1, 2, 3, 4, 5], 50, false⟩).code ∧
    movwInst 4 5 ∈ (translate_call (fun _ => "") C6sel
      ⟨"f", [1, 2, 3, 4, 5], 50, false⟩).code := by
  decide

/-! ## translate_entry (InstSelectorArm32.cpp) and allocStack, claim C10 -/

/-- The variable scan of ILocArm32::allocStack: temporaries (empty names,
names containing "tmp", names starting with t) are skipped with a comment;
arrays add their total size, other variables one word. -/
def stackScanStep (acc : List ArmInst × Int) (v : LVar) : List ArmInst × Int :=
  if v.name = "" || strContains v.name "tmp" || firstChar v.name = 't' then
    (acc.1 ++ [commentInst ("跳过临时变量: " ++ v.name)], acc.2)
  else
    match v.ty with
    | some (CType.array n) =>
      (acc.1 ++ [commentInst ("数组 " ++ v.name ++ ": " ++ intToString n ++ " 字节")],
       acc.2 + n)
    | _ =>
      (acc.1 ++ [commentInst ("局部变量 " ++ v.name ++ ": 4 字节")], acc.2 + 4)

/-- ILocArm32::allocStack: sum the persistent variables' sizes, add 32
bytes of spill space, align up to 16 bytes ((n+15) & ~15), then save the
frame pointer and drop sp, materializing the size through the temporary
register when it is not a legal constant expression. -/
def allocStack (funcName : String) (localVars : List LVar) (tmpReg : Int) :
    List ArmInst :=
  let header := [commentInst "=== 栈空间分配开始 ===",
    commentInst ("函数: " ++ funcName ++ ", 变量总数: " ++ natToString localVars.length)]
  let scan := localVars.foldl stackScanStep (header, 0)
  let size0 := scan.2 + 32
  let size := size0 + 15 - (size0 + 15) % 16
  let code2 := scan.1 ++
    [commentInst "临时变量溢出空间: 32 字节",
     commentInst ("栈帧大小: " ++ intToString size ++ " 字节")]
  if size = 0 then code2 ++ [commentInst "无需分配栈空间"]
  else
    code2 ++ mov_reg ARM32_FP_REG_NO ARM32_SP_REG_NO ++
      (if constExpr size then [emit2 "sub" "sp" "sp" (toStr size true)]
       else load_imm tmpReg size ++ [emit2 "sub" "sp" "sp" (regName tmpReg)]) ++
      [commentInst "栈帧分配完成 - 静态偏移访问策略",
       commentInst "=== 栈空间分配结束 ==="]

/-- The debug layout dump at the end of translate_entry: one comment per
named variable that has a memory address. -/
def layoutComments (localVars : List LVar) : List ArmInst :=
  [commentInst "=== 变量内存布局（调试信息） ==="] ++
  localVars.foldl
    (fun acc v =>
      if v.name ≠ "" then
        match v.memAddr with
        | some (b, o) =>
          acc ++ [commentInst ("变量 " ++ v.name ++ ": [" ++ regName b ++ ",#" ++
            intToString o ++ "]")]
        | none => acc
      else acc) [] ++
  [commentInst "=== 变量内存布局结束 ==="]

/-- The parameter-saving stores of translate_entry: the first min(n, 4)
parameters go from the argument registers to the fixed slots fp-4(i+1). -/
def paramStores (n : Nat) : List ArmInst :=
  (List.range (min n 4)).map (fun i =>
    emit1 "str" (regName (Int.ofNat i)) ("[fp,#" ++ intToString (-4 * (Int.ofNat i + 1)) ++ "]"))

/-- The comma-joined protected-register string built at the top of
translate_entry. -/
def protectedStr (regs : List Int) : String :=
  match regs with
  | [] => ""
  | r :: rs => rs.foldl (fun acc regno => acc ++ "," ++ regName regno) (regName r)

/-- What translate_entry reads from the function: name, number of
parameters, protected registers, and the local variables. -/
structure EntryFunc where
  name : String
  numParams : Nat
  protectedRegs : List Int
  localVars : List LVar

/-- The push (when registers are protected) and stack-frame allocation that
open translate_entry. -/
def entryPrologue (f : EntryFunc) : List ArmInst :=
  (if protectedStr f.protectedRegs ≠ "" then
    [emit0 "push" ("\x7b" ++ protectedStr f.protectedRegs ++ "\x7d")]
   else []) ++
  allocStack f.name f.localVars ARM32_TMP_REG_NO

/-- InstSelectorArm32::translate_entry: prologue, then — for functions with
parameters — the parameter-saving stores guarded by the process-wide
functionParamsSaved map keyed by function name, then the layout dump. The
map is threaded explicitly since it is a static local in the C++. -/
def translate_entry (f : EntryFunc) (paramsSaved : List (String × Bool)) :
    List ArmInst × List (String × Bool) :=
  let code1 := entryPrologue f
  let tail := layoutComments f.localVars
  if f.numParams ≠ 0 then
    let saved0 := if (slLookup paramsSaved f.name).isNone
                  then slSet paramsSaved f.name false else paramsSaved
    if (slLookup saved0 f.name).getD false = false then
      (code1 ++ paramStores f.numParams ++ tail, slSet saved0 f.name true)
    else (code1 ++ tail, saved0)
  else (code1 ++ tail, paramsSaved)

theorem comment_filter_str (c : String) :
    [commentInst c].filter (fun i => i.opcode = "str") = [] := rfl

theorem stackScanStep_fst_filter (acc : List ArmInst × Int) (v : LVar) :
    ((stackScanStep acc v).1).filter (fun i => i.opcode = "str") =
      acc.1.filter (fun i => i.opcode = "str") := by
  unfold stackScanStep
  split
  · simp [List.filter_append, comment_filter_str]
  · split <;> simp [List.filter_append, comment_filter_str]

theorem stackScan_no_str (vars : List LVar) (acc : List ArmInst × Int)
    (h : acc.1.filter (fun i => i.opcode = "str") = []) :
    ((vars.foldl stackScanStep acc).1).filter (fun i => i.opcode = "str") = [] := by
  induction vars generalizing acc with
  | nil => simpa using h
  | cons v vs ih =>
    rw [List.foldl_cons]
    exact ih _ ((stackScanStep_fst_filter acc v).trans h)

theorem load_imm_no_str (r k : Int) :
    (load_imm r k).filter (fun i => i.opcode = "str") = [] := by
  unfold load_imm
  split <;> rfl

theorem allocStack_no_str (fn : String) (vars : List LVar) (tmp : Int) :
    (allocStack fn vars tmp).filter (fun i => i.opcode = "str") = [] := by
  have hscan := stackScan_no_str vars
    ([commentInst "=== 栈空间分配开始 ===",
      commentInst ("函数: " ++ fn ++ ", 变量总数: " ++ natToString vars.length)], 0)
    (by rfl)
  have hsub : ∀ sz : Int,
      ((if constExpr sz then [emit2 "sub" "sp" "sp" (toStr sz true)]
        else load_imm tmp sz ++ [emit2 "sub" "sp" "sp" (regName tmp)]).filter
          (fun i => i.opcode = "str")) = [] := by
    intro sz
    split
    · rfl
    · rw [List.filter_append, load_imm_no_str]
      rfl
  simp only [allocStack]
  split
  · rw [List.filter_append, List.filter_append, hscan]
    rfl
  · rw [List.filter_append, List.filter_append, List.filter_append,
      List.filter_append, hscan, hsub]
    rfl

theorem layoutFold_no_str (vars : List LVar) (acc : List ArmInst)
    (h : acc.filter (fun i => i.opcode = "str") = []) :
    ((vars.foldl
      (fun acc2 v =>
        if v.name ≠ "" then
          match v.memAddr with
          | some (b, o) =>
            acc2 ++ [commentInst ("变量 " ++ v.name ++ ": [" ++ regName b ++ ",#" ++
              intToString o ++ "]")]
          | none => acc2
        else acc2) acc).filter (fun i => i.opcode = "str")) = [] := by
  induction vars generalizing acc with
  | nil => simpa using h
  | cons v vs ih =>
    rw [List.foldl_cons]
    apply ih
    split
    · split
      · simp [List.filter_append, comment_filter_str, h]
      · exact h
    · exact h

theorem layoutComments_no_str (vars : List LVar) :
    (layoutComments vars).filter (fun i => i.opcode = "str") = [] := by
  unfold layoutComments
  rw [List.filter_append, List.filter_append]
  rw [layoutFold_no_str vars [] (by rfl)]
  rfl

theorem entryPrologue_no_str (f : EntryFunc) :
    (entryPrologue f).filter (fun i => i.opcode = "str") = [] := by
  unfold entryPrologue
  rw [List.filter_append, allocStack_no_str]
  split <;> rfl

theorem slLookup_cons_of_neg {β : Type} (p : String × β) (ps : List (String × β))
    (k : String) (h : ¬ p.1 = k) : slLookup (p :: ps) k = slLookup ps k := by
  unfold slLookup
  rw [List.find?_cons_of_neg _ (by simp [h])]

theorem slLookup_slSet_self {β : Type} (l : List (String × β)) (k : String) (b : β) :
    slLookup (slSet l k b) k = some b := by
  induction l with
  | nil =>
    simp [slSet, slLookup, List.find?]
  | cons p ps ih =>
    by_cases hp : p.1 = k
    · have h1 : List.find? (fun q => q.1 == k) (p :: ps) = some p :=
        List.find?_cons_of_pos _ (by simp [hp])
      unfold slSet
      rw [h1]
      simp only [Option.isSome_some, if_true, List.map_cons]
      have h2 : (if (p.1 == k) = true then (k, b) else p) = (k, b) := by simp [hp]
      rw [h2]
      unfold slLookup
      rw [List.find?_cons_of_pos _ (by simp)]
      rfl
    · have h1 : List.find? (fun q => q.1 == k) (p :: ps) =
          List.find? (fun q => q.1 == k) ps :=
        List.find?_cons_of_neg _ (by simp [hp])
      by_cases h2 : (List.find? (fun q => q.1 == k) ps).isSome
      · have e1 : slSet (p :: ps) k b =
            p :: (ps.map (fun q => if q.1 == k then (k, b) else q)) := by
          unfold slSet
          rw [h1, if_pos h2, List.map_cons]
          congr 1
          simp [hp]
        have e2 : slSet ps k b = ps.map (fun q => if q.1 == k then (k, b) else q) := by
          unfold slSet
          rw [if_pos h2]
        rw [e1, slLookup_cons_of_neg _ _ _ hp, ← e2]
        exact ih
      · have e1 : slSet (p :: ps) k b = p :: (ps ++ [(k, b)]) := by
          unfold slSet
          rw [h1, if_neg h2]
          rfl
        have e2 : slSet ps k b = ps ++ [(k, b)] := by
          unfold slSet
          rw [if_neg h2]
        rw [e1, slLookup_cons_of_neg _ _ _ hp, ← e2]
        exact ih

theorem paramStores_filter (n : Nat) :
    (paramStores n).filter (fun i => i.opcode = "str") = paramStores n := by
  apply List.filter_eq_self.mpr
  intro a ha
  simp only [paramStores, List.mem_map] at ha
  obtain ⟨i, _, rfl⟩ := ha
  simp [emit1]

/-- C10: for a function with parameters whose name the static
functionParamsSaved map has not seen, translate_entry emits exactly the
stores of the first min(4, n) parameters into the slots fp-4(i+1); running
entry translation again with the returned map (as a fresh selector instance
would, sharing the process-wide static) emits no parameter store at all. -/
theorem C10_entry_param_saving (f : EntryFunc) (m : List (String × Bool))
    (hn : f.numParams ≠ 0) (hm : slLookup m f.name = none) :
    (translate_entry f m).1.filter (fun i => i.opcode = "str") =
      paramStores f.numParams ∧
    (translate_entry f (translate_entry f m).2).1.filter
      (fun i => i.opcode = "str") = [] := by
  have hsaved0 : slLookup (slSet m f.name false) f.name = some false :=
    slLookup_slSet_self m f.name false
  have h1 : translate_entry f m =
      (entryPrologue f ++ paramStores f.numParams ++ layoutComments f.localVars,
       slSet (slSet m f.name false) f.name true) := by
    unfold translate_entry
    rw [if_pos hn, hm]
    simp only [Option.isNone_none, if_true, hsaved0, Option.getD_some, if_pos rfl]
  have hsaved1 : slLookup (slSet (slSet m f.name false) f.name true) f.name =
      some true := slLookup_slSet_self _ f.name true
  constructor
  · rw [h1]
    rw [List.filter_append, List.filter_append, entryPrologue_no_str,
      paramStores_filter, layoutComments_no_str]
    simp
  · have h2 : (translate_entry f m).2 = slSet (slSet m f.name false) f.name true := by
      rw [h1]
    rw [h2]
    have h3 : translate_entry f (slSet (slSet m f.name false) f.name true) =
        (entryPrologue f ++ layoutComments f.localVars,
         slSet (slSet m f.name false) f.name true) := by
      unfold translate_entry
      rw [if_pos hn]
      simp only [hsaved1, Option.isNone_some, Option.getD_some]
      simp
      intro hcontra
      rw [hsaved1] at hcontra
      simp at hcontra
    rw [h3]
    rw [List.filter_append, entryPrologue_no_str, layoutComments_no_str]
    rfl

/-- Witness for C10: a 6-parameter function main with protected registers
r4 and lr-slot r5 and one scalar local; the first run stores exactly
parameters 0-3 to fp-4..fp-16, the second run stores none. -/
theorem C10_entry_param_saving_witness :
    (translate_entry ⟨"main", 6, [4, 5], [⟨"x", some CType.scalar, some (11, -40)⟩]⟩
      []).1.filter (fun i => i.opcode = "str") = paramStores 6 ∧
    (translate_entry ⟨"main", 6, [4, 5], [⟨"x", some CType.scalar, some (11, -40)⟩]⟩
      (translate_entry ⟨"main", 6, [4, 5], [⟨"x", some CType.scalar, some (11, -40)⟩]⟩
        []).2).1.filter (fun i => i.opcode = "str") = [] :=
  C10_entry_param_saving ⟨"main", 6, [4, 5], [⟨"x", some CType.scalar, some (11, -40)⟩]⟩
    [] (by decide) rfl

end MiniCBackend
